import Mathlib

/-!
Verification development for the FSL-TaskPipeline repository.

Shallow embedding of the Python modules under `src/utils/` (bids.py,
find_dummy.py, subjects.py, extract_parameters.py, generate_design_files.py,
generate_higher_level_feat_files.py, run_feat.py) together with theorems
settling the specification claims about them.

Strings are modelled as Lean `String`/`List Char`; the filesystem is modelled
as explicit state (association lists of paths); black-box collaborators named
in the spec (scan-header reader, template engine, external binary) enter as
explicit data / function parameters.
-/

set_option autoImplicit false

namespace FslPipeline

/-! ## Character classes and small Python string helpers -/

/-- Python whitespace characters relevant to `str.strip` / `\s` (ASCII). -/
def isPyWs (c : Char) : Bool :=
  c = ' ' || c = '\t' || c = '\n' || c = '\r' || c = '\x0b' || c = '\x0c'

/-- The regex character class `[A-Za-z0-9]` used by `_ENTITY_PATTERNS`. -/
def isAlnumAscii (c : Char) : Bool := c.isAlpha || c.isDigit

/-- Delimiters of the entity patterns: `(?:^|[/_])` and `(?=$|[/_])`. -/
def isDelim (c : Char) : Bool := c = '/' || c = '_'

/-- Python `str.strip()` on the front of a character list. -/
def dropLeadWs (l : List Char) : List Char := l.dropWhile isPyWs

/-- Python `str.strip()`: remove leading and trailing whitespace. -/
def pyStripChars (l : List Char) : List Char :=
  ((l.dropWhile isPyWs).reverse.dropWhile isPyWs).reverse

/-- Python `str.strip()` on `String`. -/
def pyStrip (s : String) : String := String.mk (pyStripChars s.toList)

/-- Python substring test `sub in s` (character lists). -/
def containsSub (s sub : List Char) : Bool :=
  (List.range (s.length + 1)).any (fun i => sub.isPrefixOf (s.drop i))

/-- Python substring test `sub in s` on `String`. -/
def strContainsSub (s sub : String) : Bool := containsSub s.toList sub.toList

/-- Python `s.endswith(suffix)`. -/
def pyEndsWith (s sfx : String) : Bool := sfx.toList.isSuffixOf s.toList

/-- Python `s.replace(pat, "")`: delete every non-overlapping occurrence of
`pat`, scanning left-to-right (used by `match_filters` for `"sub-"`/`"ses-"`). -/
def pyReplaceDel (pat : List Char) (s : List Char) : List Char :=
  if pat.isEmpty then s
  else
    match s with
    | [] => []
    | c :: rest =>
      if pat.isPrefixOf (c :: rest) then pyReplaceDel pat (rest.drop (pat.length - 1))
      else c :: pyReplaceDel pat rest
termination_by s.length
decreasing_by
all_goals simp [List.length_drop]
all_goals omega

/-- Python `os.path.join` for the absolute paths this pipeline builds. -/
def pathJoin (a b : String) : String := a ++ "/" ++ b

/-- Split a character list at every character satisfying `p`, keeping empty
pieces — Python `str.split(sep)` for single-character separators. -/
def splitCharsP (p : Char → Bool) : List Char → List (List Char)
  | [] => [[]]
  | c :: r =>
    if p c then [] :: splitCharsP p r
    else
      match splitCharsP p r with
      | h :: t => (c :: h) :: t
      | [] => [[c]]

/-- Python `s.split(',')`. -/
def pySplitComma (s : String) : List String :=
  (splitCharsP (fun c => c = ',') s.toList).map String.mk

/-- The lines of a text document (split at newlines). -/
def pyLines (s : String) : List String :=
  (splitCharsP (fun c => c = '\n') s.toList).map String.mk

/-! ## Decimal rendering and parsing (Python `str(n)` / `int(s)` / `f"{n:02d}"`) -/

/-- The character of decimal digit `d`. -/
def digitChar (d : Nat) : Char := Char.ofNat (48 + d)

/-- Python `str(n)` for a natural number. -/
def natDecimal (n : Nat) : List Char :=
  if n = 0 then ['0'] else ((Nat.digits 10 n).map digitChar).reverse

/-- Python `f"{n:02d}"` for a natural number: pad to width two with zeros. -/
def format02 (n : Nat) : List Char :=
  let s := natDecimal n
  if s.length < 2 then '0' :: s else s

/-- Python `f"{n:02d}"` for `int` values such as run numbers (negative values
already render at width at least two, as in Python). -/
def pyFormat02d (n : Int) : String :=
  let s := toString n
  if s.length < 2 then "0" ++ s else s

/-- Python `int(s)` on a non-empty string of decimal digits. -/
def parseNatDigits (l : List Char) : Nat :=
  l.foldl (fun a c => 10 * a + (c.toNat - 48)) 0

/-! ## `src/utils/bids.py` — Entity Parser and Filter Matcher

`_ENTITY_PATTERNS` are regexes of the form `(?:^|[/_])tag-(CLASS+)(?=$|[/_])`
searched with `re.search` (leftmost match).  Because the captured class never
contains `/` or `_`, the regex engine's greedy capture with lookahead is
equivalent to: take the maximal run of class characters after the tag and
require the next character (if any) to be a delimiter; backtracking to a
shorter capture can never succeed, since the following character would then be
a class character, which is not a delimiter. -/

/-- Attempt the anchored entity pattern at the head of `s`: literal `pfx`
followed by a non-empty maximal run of `valid` characters which must be
terminated by end-of-string or a delimiter.  Returns the captured token. -/
def tryMatch (pfx : List Char) (valid : Char → Bool) (s : List Char) : Option (List Char) :=
  if pfx.isPrefixOf s then
    let rest := s.drop pfx.length
    let tok := rest.takeWhile valid
    if tok.isEmpty then none
    else
      match rest.dropWhile valid with
      | [] => some tok
      | c :: _ => if isDelim c then some tok else none
  else none

/-- Leftmost search for the entity pattern (`re.search`).  `canStart` records
whether the current position is a legal anchor: the start of the string, or
the position just after a `/` or `_` (the consumed `(?:^|[/_])` alternative). -/
def scanFor (pfx : List Char) (valid : Char → Bool) : Bool → List Char → Option (List Char)
  | canStart, [] => if canStart then tryMatch pfx valid [] else none
  | canStart, c :: rest =>
    match (if canStart then tryMatch pfx valid (c :: rest) else none) with
    | some t => some t
    | none => scanFor pfx valid (isDelim c) rest

def subTag : List Char := ['s', 'u', 'b', '-']
def sesTag : List Char := ['s', 'e', 's', '-']
def taskTag : List Char := ['t', 'a', 's', 'k', '-']
def runTag : List Char := ['r', 'u', 'n', '-']

/-- Parsed BIDS entities (`parse_bids_entities` output dictionary). -/
structure Entities where
  subject : Option (List Char)
  session : Option (List Char)
  task : Option (List Char)
  run : Option Int
deriving Repr, DecidableEq

/-- `parse_bids_entities` of bids.py.  The `run` capture consists of decimal
digits, so Python's `int(val)` always succeeds and the `ValueError` branch
(returning `None`) is unreachable. -/
def parse_bids_entities (s : List Char) : Entities where
  subject := scanFor subTag isAlnumAscii true s
  session := scanFor sesTag isAlnumAscii true s
  task := scanFor taskTag isAlnumAscii true s
  run := (scanFor runTag Char.isDigit true s).map (fun tok => (parseNatDigits tok : Int))

/-- `match_filters` of bids.py.  `Option.getD [] ≠ []` mirrors Python's
truthiness test `if subject:` (both `None` and `""`/`[]` are falsy). -/
def match_filters (e : Entities) (subject : Option (List Char))
    (task_filters : Option (List (List Char))) (run_filters : Option (List (Option Int)))
    (session : Option (List Char)) : Bool :=
  if subject.getD [] ≠ [] ∧ e.subject ≠ some (pyReplaceDel subTag (subject.getD [])) then
    false
  else if session.getD [] ≠ [] ∧ e.session ≠ some (pyReplaceDel sesTag (session.getD [])) then
    false
  else if task_filters.getD [] ≠ [] ∧
      (e.task = none ∨ e.task.getD [] ∉ task_filters.getD []) then
    false
  else
    match run_filters with
    | none => true
    | some rf =>
      if rf.isEmpty then true
      else
        match e.run with
        | none => rf.any (fun x => x.isNone)
        | some r => (rf.filterMap id).contains r

/-! ## `src/utils/find_dummy.py` — discard-frame rule lookup -/

/-- One element of `dummy_scan_rules`; fields are read with `dict.get`, so
either may be absent. -/
structure DummyRule where
  frames : Option Int
  dummy : Option Int
deriving Repr, DecidableEq

/-- The dummy-scan configuration JSON (`dummy_scan_rules` / `default_dummy`). -/
structure DummyConfig where
  dummy_scan_rules : List DummyRule
  default_dummy : Option Int
deriving Repr, DecidableEq

/-- The rule-table scan loop inside `get_dummy_scans`. -/
def dummyLoop (num_frames : Int) (dflt : Int) : List DummyRule → Int
  | [] => dflt
  | r :: rest =>
    if r.frames == some num_frames then r.dummy.getD dflt else dummyLoop num_frames dflt rest

/-- `get_dummy_scans` of find_dummy.py: first exact frame-count match wins,
otherwise `default_dummy` (itself defaulting to 2). -/
def get_dummy_scans (num_frames : Int) (config : DummyConfig) : Int :=
  dummyLoop num_frames (config.default_dummy.getD 2) config.dummy_scan_rules

/-! ## `src/utils/subjects.py` — Subject Resolver -/

/-- The `subjects_arg` parameter of `parse_subjects_arg`: `None`, a string, or
an iterable of tokens. -/
inductive SubjectsArg where
  | noneArg
  | str (s : String)
  | list (l : List String)
deriving Repr, DecidableEq

/-- Python truthiness of `subjects_arg` (`if not subjects_arg`). -/
def subjectsTruthy : SubjectsArg → Bool
  | .noneArg => false
  | .str s => !(s == "")
  | .list l => !l.isEmpty

/-- The comprehension `[s.strip() for s in l if s.strip()]`. -/
def stripNonempty (l : List String) : List String :=
  (l.map pyStrip).filter (fun s => !(s == ""))

/-- `re.split(r"[\n,]+", raw)` up to empty pieces: splitting at every single
separator character yields the same list as splitting at separator runs plus
interspersed empty strings, and all uses immediately discard empty/whitespace
pieces via `stripNonempty`. -/
def splitNlComma (s : String) : List String :=
  (splitCharsP (fun c => c = '\n' || c = ',') s.toList).map String.mk

/-- The final loop of `parse_subjects_arg`: split every token on commas. -/
def commaBranch (tokens : List String) : Option (List String) :=
  let subs := tokens.flatMap (fun t => stripNonempty (pySplitComma t))
  if subs.isEmpty then none else some subs

/-- Token normalization of `parse_subjects_arg`: a string argument is a
single token; an iterable is stripped and filtered. -/
def tokensOf : SubjectsArg → List String
  | .str s => [s]
  | .list l => stripNonempty l
  | .noneArg => []

/-- The branch structure of `parse_subjects_arg` after tokenization: a single
token naming an existing regular file is read and split on commas/newlines;
otherwise every token is split on commas. -/
def fileOrComma (fsfile : String → Option String) : List String → Option (List String)
  | [t] =>
    (match fsfile t with
     | some raw =>
       let subs := stripNonempty (splitNlComma (pyStrip raw))
       if subs.isEmpty then none else some subs
     | none => commaBranch [t])
  | tokens => commaBranch tokens

/-- `parse_subjects_arg` of subjects.py.  `fsfile p` models
`os.path.isfile(p)` plus `open(p).read()`: `some content` when `p` is an
existing regular file. -/
def parse_subjects_arg (fsfile : String → Option String) (arg : SubjectsArg) :
    Option (List String) :=
  if subjectsTruthy arg = false then none
  else fileOrComma fsfile (tokensOf arg)

/-! ## Filesystem state

The pipeline writes text files; we model the written tree as an association
list from path to content, with newest writes in front (so `fsGet` sees the
last write, matching `open(path, "w")` overwrite semantics). -/

abbrev FS := List (String × String)

def fsHas (fs : FS) (p : String) : Bool := fs.any (fun kv => kv.1 == p)

def fsGet (fs : FS) (p : String) : Option String :=
  (fs.find? (fun kv => kv.1 == p)).map (fun kv => kv.2)

def fsWrite (fs : FS) (p c : String) : FS := (p, c) :: fs

/-! ## `src/utils/extract_parameters.py` — Parameter Extractor -/

/-- Header data returned by the scan-header reader (black box, spec section 6):
zoom factors are only ever rendered into text, so they are carried as their
decimal renderings; shape entries are read as integers. -/
structure ScanHeader where
  zooms : List String
  shape : List Int
deriving Repr, DecidableEq

/-- One functional scan file discovered in the input tree, together with the
result of reading its header (`none` models `nib.load` raising — the
per-file `except` branch). -/
structure ScanItem where
  subject : String
  session : String
  fileName : String
  header : Option ScanHeader
deriving Repr, DecidableEq

/-- The task-filter test of the extractor loop:
`any(f"task-{t}" in file for t in task_filters)` guarded by `if task_filters:`. -/
def extractorTaskOk (file : String) : Option (List String) → Bool
  | none => true
  | some [] => true
  | some ts => ts.any (fun t => strContainsSub file ("task-" ++ t))

/-- The run-filter test of the extractor loop:
`any(f"run-{int(r):02d}" in file for r in run_filters)` guarded by
`if run_filters:`. -/
def extractorRunOk (file : String) : Option (List Int) → Bool
  | none => true
  | some [] => true
  | some rs => rs.any (fun r => strContainsSub file ("run-" ++ pyFormat02d r))

/-- Whether the extractor loop processes a directory entry: the two
`continue` filters must pass and the name must end in `_bold.nii.gz`. -/
def extractor_accepts (file : String) (task_filters : Option (List String))
    (run_filters : Option (List Int)) : Bool :=
  extractorTaskOk file task_filters && extractorRunOk file run_filters &&
    pyEndsWith file "_bold.nii.gz"

/-- `scan_name = file.replace("_bold.nii.gz", "")`. -/
def scanName (file : String) : String :=
  String.mk (pyReplaceDel "_bold.nii.gz".toList file.toList)

/-- The configuration-record path
`output_dir/fsl_feat_v6.0.7.4/configurations/<subject>/<session>/<stem>_configuration.md`. -/
def scan_config_path (output_dir subject session file : String) : String :=
  pathJoin (pathJoin (pathJoin (pathJoin (pathJoin output_dir "fsl_feat_v6.0.7.4")
    "configurations") subject) session) (scanName file ++ "_configuration.md")

/-- Rendering of the frame count into the record (`f"{frames}"`, where
`frames` is either the integer `shape[3]` or the string `'N/A'`). -/
def renderFrames : Option Int → String
  | some n => toString n
  | none => "N/A"

/-- The `config_content` string built by `extract_and_write_scan_info`.
`tr = header.get_zooms()[3] if len(...) > 3 else 'N/A'` is `zooms.getD 3 "N/A"`;
`frames = shape[3] if len(shape) > 3 else 'N/A'` is `shape[3]?`, with
`isinstance(frames, int)` becoming the `Option` case split. -/
def buildScanConfig (config : DummyConfig) (scan_name : String) (hdr : ScanHeader) : String :=
  let tr : String := hdr.zooms.getD 3 "N/A"
  let frames : Option Int := hdr.shape[3]?
  let discard_frames : Int :=
    match frames with
    | some n => get_dummy_scans n config
    | none => config.default_dummy.getD 2
  "# " ++ scan_name ++ "_configuration.md\n\n" ++
  "TOTAL_REPETITION_TIME = " ++ tr ++ "\n" ++
  "TOTAL_FRAMES = " ++ renderFrames frames ++ "\n" ++
  "DISCARD_FRAMES = " ++ toString discard_frames ++ "\n" ++
  "CRITICAL_Z = 2.3\n" ++
  "SMOOTHING_KERNEL = 4\n" ++
  "PROB_THRESHOLD = 0.05\n" ++
  "Z_THRESHOLD = 3.1\n" ++
  "Z_MINIMUM = 3.1\n"

/-- Processing of one directory entry inside `extract_and_write_scan_info`:
filters, the `_bold.nii.gz` check, the skip-if-record-exists check, and the
guarded header read + write.  The second component accumulates the list of
paths written (in order). -/
def extract_step (config : DummyConfig) (output_dir : String)
    (task_filters : Option (List String)) (run_filters : Option (List Int))
    (acc : FS × List String) (item : ScanItem) : FS × List String :=
  if extractor_accepts item.fileName task_filters run_filters then
    let config_filepath := scan_config_path output_dir item.subject item.session item.fileName
    if fsHas acc.1 config_filepath then acc
    else
      match item.header with
      | some hdr =>
        (fsWrite acc.1 config_filepath (buildScanConfig config (scanName item.fileName) hdr),
          acc.2 ++ [config_filepath])
      | none => acc
  else acc

/-- `extract_and_write_scan_info` over the flattened, ordered list of
directory entries discovered by the subject/session/func walk. -/
def extract_and_write_scan_info (config : DummyConfig) (output_dir : String)
    (task_filters : Option (List String)) (run_filters : Option (List Int))
    (items : List ScanItem) (fs : FS) : FS × List String :=
  items.foldl (extract_step config output_dir task_filters run_filters) (fs, [])

/-! ## `src/utils/generate_design_files.py` — Design Synthesizer -/

/-- `os.path.join(output_directory, "fsl_feat_v6.0.7.4", "subject_designs",
f"space-{space}")`. -/
def subject_design_output (output_directory space : String) : String :=
  pathJoin (pathJoin (pathJoin output_directory "fsl_feat_v6.0.7.4") "subject_designs")
    ("space-" ++ space)

/-- The generated design filename: block suffix only for non-`standard`
blocks. -/
def output_fsf_filename (subject_id session_id task : String) (run_number : Int)
    (block : String) : String :=
  subject_id ++ "_" ++ session_id ++ "_task-" ++ task ++ "_run-" ++
    pyFormat02d run_number ++ (if block == "standard" then "" else "_" ++ block) ++ ".fsf"

/-- `if not custom_block: custom_block = ["standard"]`. -/
def defaultBlocks (custom_block : List String) : List String :=
  if custom_block.isEmpty then ["standard"] else custom_block

/-- The per-block loop of `generate_fsf`: for each block, render the template
and write the design document, unconditionally (`open(output_fsf_path, 'w')`
with no prior existence check).  `render` abstracts the Jinja2 engine applied
to the template and all substitution variables of a block (a deterministic
function of the block for a fixed, unchanged input tree).  The subsequent
`subprocess.run(["feat", ...])` call is external execution, outside this
model.  Returns the updated tree and the written paths in order. -/
def generate_fsf_writes (output_directory task : String) (run_number : Int)
    (subject_id session_id space : String) (custom_block : List String)
    (render : String → String) (fs : FS) : FS × List String :=
  (defaultBlocks custom_block).foldl
    (fun acc block =>
      let output_fsf_path := pathJoin (subject_design_output output_directory space)
        (output_fsf_filename subject_id session_id task run_number block)
      (fsWrite acc.1 output_fsf_path (render block), acc.2 ++ [output_fsf_path]))
    (fs, [])

/-- The configuration-record path probed by `main` of
generate_design_files.py. -/
def gdf_config_path (output_directory subject_id session_id task : String)
    (run_number : Int) : String :=
  pathJoin (pathJoin output_directory
      ("fsl_feat_v6.0.7.4/configurations/" ++ subject_id ++ "/" ++ session_id))
    (subject_id ++ "_" ++ session_id ++ "_task-" ++ task ++ "_run-" ++
      pyFormat02d run_number ++ "_configuration.md")

/-- `main` of generate_design_files.py over resolved `(subject, session)`
directories: for every pair and run, call `generate_fsf` when the
configuration record exists, else warn and skip.  The Python function body
contains no `return` statement, so the call expression evaluates to `None`:
the second component is that return value. -/
def gdf_main (output_directory task : String) (custom_block : List String)
    (subject_dirs : List (String × String)) (runs : List Int) (space : String)
    (render : String → String → Int → String → String) (fs : FS) :
    FS × Option (List String) :=
  let finalFs := subject_dirs.foldl
    (fun accFs sd =>
      runs.foldl
        (fun acc2 run =>
          if fsHas acc2 (gdf_config_path output_directory sd.1 sd.2 task run) then
            (generate_fsf_writes output_directory task run sd.1 sd.2 space custom_block
              (render sd.1 sd.2 run) acc2).1
          else acc2)
        accFs)
    fs
  (finalFs, none)

/-- `list.extend(v)` in run_pipeline.py applied to the value returned by
`generate_design_files.main`: extending with `None` raises `TypeError`. -/
def pyExtendResult (acc : List String) (v : Option (List String)) :
    Except String (List String) :=
  match v with
  | some l => Except.ok (acc ++ l)
  | none => Except.error "TypeError: NoneType object is not iterable"

/-! ## `src/utils/run_feat.py` — Job Dispatcher

`_OUTPUTDIR_RE = ^\s*set\s+fmri\(outputdir\)\s+"?([^"\n]+)"?\s*$`, applied
with `re.match` to each line in file order; first matching line wins.

The regex is deterministic except at two points. The whitespace runs before
`set` and before `fmri(outputdir)` cannot backtrack usefully (the following
literal starts with a non-whitespace character); the `\s+` before the capture
CAN backtrack, because the capture class `[^"\n]+` admits whitespace, so
consumption lengths are tried greedily from the maximal run down to one.
Inside the tail, `"?` before the capture effectively consumes a present
quote (a capture cannot start with `"`); the capture length is tried
greedily, and the closing `"?\s*$` accepts either a quote followed by
whitespace-only text or whitespace-only text (`$` also matches just before a
trailing newline, so `\s*$` succeeds exactly on all-whitespace remainders). -/

/-- The capture class `[^"\n]`. -/
def captureClassB (c : Char) : Bool := !(c = '"' || c = '\n')

/-- Whether `\s*$` matches the whole remainder. -/
def allWsB (s : List Char) : Bool := s.all isPyWs

/-- The closing `"?\s*$` of `_OUTPUTDIR_RE`. -/
def closeOk (u : List Char) : Bool :=
  (match u with
   | '"' :: v => allWsB v
   | _ => false) || allWsB u

/-- Greedy capture `([^"\n]+)` followed by `"?\s*$`: longest capture first. -/
def bodyMatch (t : List Char) : Option (List Char) :=
  let m := (t.takeWhile captureClassB).length
  (List.range m).findSome? (fun i =>
    if closeOk (t.drop (m - i)) then some (t.take (m - i)) else none)

/-- The optional opening quote `"?` before the capture. -/
def tailMatch : List Char → Option (List Char)
  | '"' :: v => bodyMatch v
  | r => bodyMatch r

/-- The backtracking `\s+` before `"?([^"\n]+)"?\s*$`: consume from the
maximal whitespace run down to a single character. -/
def wsThenTail (r : List Char) : Option (List Char) :=
  let j := (r.takeWhile isPyWs).length
  (List.range j).findSome? (fun i => tailMatch (r.drop (j - i)))

def fmriTok : List Char := "fmri(outputdir)".toList

/-- `_OUTPUTDIR_RE.match(line)` returning the captured output directory. -/
def matchOutputdirLine (line : String) : Option String :=
  let s1 := line.toList.dropWhile isPyWs
  if ("set".toList).isPrefixOf s1 then
    let s2 := s1.drop 3
    match s2 with
    | [] => none
    | c :: _ =>
      if isPyWs c ∧ fmriTok.isPrefixOf (s2.dropWhile isPyWs) then
        (wsThenTail ((s2.dropWhile isPyWs).drop fmriTok.length)).map String.mk
      else none
  else none

/-- `feat_outputdir_from_fsf`: first structural match over the document's
lines, in order. -/
def feat_outputdir_from_fsf (docLines : List String) : Option String :=
  docLines.findSome? matchOutputdirLine

/-- Directory tree state seen by `feat_is_complete`: which paths exist, and
which of them are directories. -/
structure DirState where
  files : List String
  dirs : List String
deriving Repr, DecidableEq

/-- `Path.exists()`. -/
def pathExistsB (fs : DirState) (p : String) : Bool :=
  fs.files.contains p || fs.dirs.contains p

/-- `Path.is_dir()`. -/
def isDirB (fs : DirState) (p : String) : Bool := fs.dirs.contains p

/-- `feat_is_complete` of run_feat.py. -/
def feat_is_complete (fs : DirState) (outputdir : String) : Bool :=
  if !pathExistsB fs outputdir then false
  else if !isDirB fs outputdir then false
  else if !pathExistsB fs (pathJoin outputdir "design.fsf") then false
  else if !pathExistsB fs (pathJoin outputdir "stats") then false
  else if pathExistsB fs (pathJoin outputdir "filtered_func_data.nii.gz") then true
  else pathExistsB fs (pathJoin outputdir "report.html")

/-- Whether `_run_single_feat` invokes the external binary (`run_cmd`): it
skips exactly when `outdir` is truthy, `feat_is_complete(outdir)` holds and
`force` is not set. -/
def run_single_feat_invokes (fs : DirState) (docLines : List String) (force : Bool) : Bool :=
  match feat_outputdir_from_fsf docLines with
  | some outdir =>
    if outdir ≠ "" ∧ feat_is_complete fs outdir = true ∧ force = false then false else true
  | none => true

/-- The `as_completed` collection loop of `run_feat`: jobs are presented in
completion order with their success flag; the first future whose result
raises `CalledProcessError` makes the loop raise
`RuntimeError(f"FEAT failed for {fsf}: ...")` (the elided exception text
describes that same job's process).  All submitted jobs still run to
completion — the executor's shutdown waits — but later outcomes are never
examined. -/
def run_feat_collect : List (String × Bool) → Except String Unit
  | [] => Except.ok ()
  | (p, ok) :: rest =>
    if ok then run_feat_collect rest else Except.error ("FEAT failed for " ++ p)

/-- `run_feat` outcome: filter falsy paths (`[p for p in fsf_paths if p]`),
return early when empty, else collect in completion order. -/
def run_feat_result (jobs : List (String × Bool)) : Except String Unit :=
  let fsf_list := jobs.filter (fun j => !(j.1 == ""))
  if fsf_list.isEmpty then Except.ok () else run_feat_collect fsf_list

/-! ## `src/utils/generate_higher_level_feat_files.py` — Run-Pair Aggregator -/

/-- `FEAT_DIR_PATTERN.match(directory_name)`:
`^(sub-[^_]+)_(ses-[^_]+)_task-([^_]+)_run-(\d+)` (prefix match; trailing
text such as `.feat` is allowed).  Each `[^_]+` is a maximal non-underscore
run (the class excludes the following literal `_`, so no backtracking), and
`\d+` is a maximal non-empty digit run.  The subject and session groups
include their `sub-`/`ses-` prefixes. -/
def parse_feat_dir_name (s : List Char) : Option (String × String × String × Int) :=
  if subTag.isPrefixOf s then
    let subjTok := (s.drop 4).takeWhile (fun c => !(c = '_'))
    if subjTok.isEmpty then none
    else
      match (s.drop 4).dropWhile (fun c => !(c = '_')) with
      | '_' :: r1 =>
        if sesTag.isPrefixOf r1 then
          let sesTok := (r1.drop 4).takeWhile (fun c => !(c = '_'))
          if sesTok.isEmpty then none
          else
            match (r1.drop 4).dropWhile (fun c => !(c = '_')) with
            | '_' :: r2 =>
              if taskTag.isPrefixOf r2 then
                let taskTok := (r2.drop 5).takeWhile (fun c => !(c = '_'))
                if taskTok.isEmpty then none
                else
                  match (r2.drop 5).dropWhile (fun c => !(c = '_')) with
                  | '_' :: r3 =>
                    if runTag.isPrefixOf r3 then
                      let digitsTok := (r3.drop 4).takeWhile Char.isDigit
                      if digitsTok.isEmpty then none
                      else some (String.mk (subTag ++ subjTok), String.mk (sesTag ++ sesTok),
                        String.mk taskTok, (parseNatDigits digitsTok : Int))
                    else none
                  | _ => none
              else none
            | _ => none
        else none
      | _ => none
  else none

/-- The `subjects` argument of `collect_feat_dirs` (None, a comma-separated
string, or an iterable). -/
inductive SubjectsParam where
  | noneP
  | strP (s : String)
  | listP (l : List String)
deriving Repr, DecidableEq

/-- `_normalize_subjects`: Python builds a `set`; membership in the returned
list is what the caller tests, so a list with the same members is a faithful
model. -/
def normalize_subjects : SubjectsParam → Option (List String)
  | .noneP => none
  | .strP s =>
    if s == "" then none
    else
      let subs := stripNonempty (pySplitComma s)
      if subs.isEmpty then none else some subs
  | .listP l => if l.isEmpty then none else some l

/-- A first-level FEAT output directory discovered by `collect_feat_dirs`. -/
structure FeatEntry where
  subject : String
  session : String
  task : String
  run : Int
  path : String
deriving Repr, DecidableEq

/-- `collect_feat_dirs` over the result of `os.walk` given as a list of
`(root, dirs)` pairs in walk order. -/
def collect_feat_dirs (walk : List (String × List String)) (subjects : SubjectsParam)
    (task_filters : Option (List String)) : List FeatEntry :=
  walk.flatMap (fun rd =>
    rd.2.filterMap (fun d =>
      match parse_feat_dir_name d.toList with
      | none => none
      | some info =>
        if (match normalize_subjects subjects with
            | some ss => !(ss.contains info.1)
            | none => false) then none
        else if (match task_filters with
            | none => false
            | some [] => false
            | some ts => !(ts.contains info.2.2.1)) then none
        else some ⟨info.1, info.2.1, info.2.2.1, info.2.2.2, pathJoin rd.1 d⟩))

abbrev GroupKey := String × String × String

abbrev RunsMap := List (Int × String)

def entryKey (e : FeatEntry) : GroupKey := (e.subject, e.session, e.task)

/-- `runs[run] = path` on the per-group dictionary: overwrite an existing run
key, else append (dict insertion order). -/
def runsInsert (m : RunsMap) (r : Int) (p : String) : RunsMap :=
  if m.any (fun kv => kv.1 == r) then
    m.map (fun kv => if kv.1 == r then (kv.1, p) else kv)
  else m ++ [(r, p)]

/-- `grouped.setdefault(key, {})[run] = path` on the outer dictionary. -/
def groupInsert (g : List (GroupKey × RunsMap)) (e : FeatEntry) :
    List (GroupKey × RunsMap) :=
  if g.any (fun km => km.1 == entryKey e) then
    g.map (fun km =>
      if km.1 == entryKey e then (km.1, runsInsert km.2 e.run e.path) else km)
  else g ++ [(entryKey e, [(e.run, e.path)])]

/-- The grouping loop of `pair_runs`. -/
def groupEntries (entries : List FeatEntry) : List (GroupKey × RunsMap) :=
  entries.foldl groupInsert []

/-- `run in runs` / `runs[run]` on a per-group dictionary. -/
def runsLookup (m : RunsMap) (r : Int) : Option String :=
  (m.find? (fun kv => kv.1 == r)).map (fun kv => kv.2)

/-- One emitted higher-level pairing. -/
structure RunPair where
  subject : String
  session : String
  task : String
  run_a : Int
  run_b : Int
  path_a : String
  path_b : String
deriving Repr, DecidableEq

/-- The `logging.info("Skipping pair for %s %s task-%s, missing runs: %s", ...)`
message. -/
def missingRunsMsg (k : GroupKey) (missing : List Int) : String :=
  "Skipping pair for " ++ k.1 ++ " " ++ k.2.1 ++ " task-" ++ k.2.2 ++
    ", missing runs: " ++ String.intercalate ", " (missing.map toString)

/-- The per-group body of the `pair_runs` loop. -/
def pairStep (run_a run_b : Int) (km : GroupKey × RunsMap)
    (acc : List RunPair × List String) : List RunPair × List String :=
  match runsLookup km.2 run_a, runsLookup km.2 run_b with
  | some pa, some pb =>
    (⟨km.1.1, km.1.2.1, km.1.2.2, run_a, run_b, pa, pb⟩ :: acc.1, acc.2)
  | oa, ob =>
    (acc.1,
      missingRunsMsg km.1
        ((if oa.isSome then [] else [run_a]) ++ (if ob.isSome then [] else [run_b]))
        :: acc.2)

/-- `pair_runs`: group, then emit a pairing per group exactly when both runs
are present, logging the missing runs otherwise.  Returns (pairs, log
messages), each in iteration order. -/
def pair_runs (entries : List FeatEntry) (run_a run_b : Int) :
    List RunPair × List String :=
  (groupEntries entries).foldr (pairStep run_a run_b) ([], [])

/-- `f"{subject}_{session}_task-{task}_runs-{run_a:02d}-{run_b:02d}"`. -/
def ghl_output_base (p : RunPair) : String :=
  p.subject ++ "_" ++ p.session ++ "_task-" ++ p.task ++ "_runs-" ++
    pyFormat02d p.run_a ++ "-" ++ pyFormat02d p.run_b

/-- `main` of generate_higher_level_feat_files.py: collect, pair, then for
each pairing compute the design path, skip-if-exists, else render and write.
`existing` is the set of design paths already on disk; template rendering is
a black box and affects only file content, not the returned path list.
Returns (generated paths, log messages). -/
def ghl_main (walk : List (String × List String)) (subjects : SubjectsParam)
    (task_filters : Option (List String)) (run_pair : Int × Int)
    (design_output_dir _feat_output_dir : String) (existing : List String) :
    List String × List String :=
  let entries := collect_feat_dirs walk subjects task_filters
  if entries.isEmpty then ([], ["No FEAT directories found. Exiting."])
  else
    let pr := pair_runs entries run_pair.1 run_pair.2
    if pr.1.isEmpty then ([], pr.2 ++ ["No run pairs found to process. Exiting."])
    else
      pr.1.foldl
        (fun acc p =>
          let base := ghl_output_base p
          let output_fsf := pathJoin (pathJoin (pathJoin design_output_dir p.subject)
            p.session) (base ++ ".fsf")
          if existing.contains output_fsf then
            (acc.1, acc.2 ++ ["FSF already exists, skipping: " ++ output_fsf])
          else
            (acc.1 ++ [output_fsf], acc.2 ++ ["Generated higher-level FSF: " ++ output_fsf]))
        ([], pr.2)

/-! ## Spec-side definitions used to state claims -/

/-- Modelled from the spec (claim C9): file acceptance as the Filter Matcher
(`match_filters`, section 4.2) applied to the parsed entity set, together
with the scan suffix convention.  The extractor's integer run filters appear
to `match_filters` as non-null entries. -/
def filter_matcher_accepts (file : String) (task_filters : Option (List String))
    (run_filters : Option (List Int)) : Bool :=
  match_filters (parse_bids_entities file.toList) none
      (task_filters.map (fun l => l.map String.toList))
      (run_filters.map (fun l => l.map (fun r => (some r : Option Int)))) none &&
    pyEndsWith file "_bold.nii.gz"

/-- The scan filename convention
`sub-<S>_ses-<E>_task-<T>_run-<NN>_bold.nii.gz` (claim C8), assembled from an
entity set with the run number zero-padded to two digits. -/
def buildScanFilename (S E T : List Char) (run : Nat) : List Char :=
  subTag ++ (S ++ '_' :: (sesTag ++ (E ++ '_' :: (taskTag ++ (T ++ '_' ::
    (runTag ++ (format02 run ++ '_' :: "bold.nii.gz".toList)))))))

/-- A `(subject, session, task)` group of the Run-Pair Aggregator contains a
given run exactly when some collected first-level entry carries that key and
run (claim C4). -/
def hasRunEntry (entries : List FeatEntry) (k : GroupKey) (r : Int) : Prop :=
  ∃ e ∈ entries, entryKey e = k ∧ e.run = r

/-! ## Helper lemmas -/

lemma dummyLoop_eq_find (n : Int) (d : Int) (rules : List DummyRule) :
    dummyLoop n d rules =
      (match rules.find? (fun r => r.frames == some n) with
       | some r => r.dummy.getD d
       | none => d) := by
  induction rules with
  | nil => rfl
  | cons r rest ih =>
    by_cases h : (r.frames == some n) = true <;>
      simp [dummyLoop, List.find?_cons, h, ih]

lemma run_feat_collect_ok_iff (l : List (String × Bool)) :
    run_feat_collect l = Except.ok () ↔ ∀ j ∈ l, j.2 = true := by
  induction l with
  | nil => simp [run_feat_collect]
  | cons j rest ih =>
    obtain ⟨p, ok⟩ := j
    by_cases h : ok = true <;> simp [run_feat_collect, h, ih]

lemma run_feat_result_eq_collect (jobs : List (String × Bool)) :
    run_feat_result jobs = run_feat_collect (jobs.filter (fun j => !(j.1 == ""))) := by
  unfold run_feat_result
  cases h : (jobs.filter (fun j => !(j.1 == ""))).isEmpty with
  | true =>
    rw [List.isEmpty_iff] at h
    simp [h, run_feat_collect]
  | false => simp [h]

lemma run_feat_collect_append_ok (pre l : List (String × Bool))
    (h : ∀ j ∈ pre, j.2 = true) :
    run_feat_collect (pre ++ l) = run_feat_collect l := by
  induction pre with
  | nil => rfl
  | cons j rest ih =>
    obtain ⟨p, ok⟩ := j
    have hok : ok = true := h (p, ok) (by simp)
    simp only [List.cons_append, run_feat_collect, hok, if_true]
    exact ih (fun j hj => h j (by simp [hj]))

/-! ## Claim C3 -/

/-- C3: for every concrete integer frame count, `get_dummy_scans` returns the
dummy value of the first rule in the ordered `dummy_scan_rules` table whose
`frames` field exactly equals the frame count (with the configured default,
itself defaulting to 2, when the matching rule carries no dummy value), and
the configured default when no rule matches; and for a scan with header zooms
`(2.0, 2.0, 2.0, 2.5)` and shape `(64, 64, 33, 200)` under an empty rule
table with default 2, the written configuration record contains the lines
`TOTAL_REPETITION_TIME = 2.5`, `TOTAL_FRAMES = 200`, `DISCARD_FRAMES = 2`. -/
theorem c3_discard_frame_rule :
    (∀ (n : Int) (cfg : DummyConfig),
        get_dummy_scans n cfg =
          match cfg.dummy_scan_rules.find? (fun r => r.frames == some n) with
          | some r => r.dummy.getD (cfg.default_dummy.getD 2)
          | none => cfg.default_dummy.getD 2) ∧
    ("TOTAL_REPETITION_TIME = 2.5" ∈
        pyLines (buildScanConfig ⟨[], some 2⟩ "sub-001_ses-001_task-rest_run-01"
          ⟨["2.0", "2.0", "2.0", "2.5"], [64, 64, 33, 200]⟩) ∧
      "TOTAL_FRAMES = 200" ∈
        pyLines (buildScanConfig ⟨[], some 2⟩ "sub-001_ses-001_task-rest_run-01"
          ⟨["2.0", "2.0", "2.0", "2.5"], [64, 64, 33, 200]⟩) ∧
      "DISCARD_FRAMES = 2" ∈
        pyLines (buildScanConfig ⟨[], some 2⟩ "sub-001_ses-001_task-rest_run-01"
          ⟨["2.0", "2.0", "2.0", "2.5"], [64, 64, 33, 200]⟩)) := by
  refine ⟨fun n cfg => dummyLoop_eq_find n _ _, ?_, ?_, ?_⟩ <;> decide

/-! ## Claim C5 -/

/-- C5 counterexample: with a supplied empty run-filter list, an entity whose
run is `null` is accepted by `match_filters` even though the list does not
contain `null` — the claimed biconditional fails at `run_filters = []`
(Python treats the empty list as an absent filter dimension). -/
theorem c5_counterexample :
    match_filters ⟨none, none, none, none⟩ none none (some []) none = true ∧
      ¬ (none ∈ ([] : List (Option Int))) := by
  exact ⟨rfl, by simp⟩

/-- C5 (amended): for every entity set and every supplied NON-EMPTY
run-filter list, an entity with run `null` is accepted iff the list contains
`null`, and an entity with non-null run `n` is accepted iff `n` appears
verbatim among the list's non-null entries; an absent run-filter dimension
(and likewise a supplied empty list, which Python's truthiness test treats
as absent) accepts any run value, including `null`. -/
theorem c5_run_filter_amended (e : Entities) (rf : List (Option Int)) (h : rf ≠ []) :
    (match_filters e none none (some rf) none = true ↔
        (match e.run with
         | none => none ∈ rf
         | some r => some r ∈ rf)) ∧
      match_filters e none none none none = true := by
  constructor
  · have hne : rf.isEmpty = false := by
      cases rf with
      | nil => exact absurd rfl h
      | cons x xs => rfl
    cases hr : e.run with
    | none =>
      simp [match_filters, hne, hr, List.any_eq_true, Option.isNone_iff_eq_none]
    | some r =>
      simp [match_filters, hne, hr, List.contains, List.elem_iff, List.mem_filterMap]
  · simp [match_filters]

/-- C5 amended witness: instantiation at entity `run = 2` and filter
`[some 2]`. -/
theorem c5_run_filter_amended_witness :
    (match_filters ⟨none, none, none, some 2⟩ none none (some [some 2]) none = true ↔
        some (2 : Int) ∈ [some (2 : Int)]) ∧
      match_filters ⟨none, none, none, some 2⟩ none none none none = true :=
  c5_run_filter_amended ⟨none, none, none, some 2⟩ [some 2] (by simp)

/-! ## Claim C6 -/

/-- C6 (code bug): `main` of generate_design_files.py has no `return`
statement, so every invocation returns `None` rather than the flat list of
newly generated design-document paths; the caller in run_pipeline.py does
`first_level_fsfs.extend(...)` on that value, which raises `TypeError`. -/
theorem c6_main_returns_none :
    (∀ (od task : String) (cb : List String) (sdirs : List (String × String))
        (runs : List Int) (space : String)
        (render : String → String → Int → String → String) (fs : FS),
        (gdf_main od task cb sdirs runs space render fs).2 = none) ∧
      pyExtendResult []
          (gdf_main "/out" "hand" [] [("sub-001", "ses-001")] [1] "native"
            (fun _ _ _ _ => "design") []).2 =
        Except.error "TypeError: NoneType object is not iterable" :=
  ⟨fun _ _ _ _ _ _ _ _ => rfl, rfl⟩

/-! ## Claim C2 -/

/-- C2 counterexample: with two failing jobs (in completion order), the
dispatcher surfaces a failure naming only the first failing document;
`b.fsf`'s failure is not identified anywhere in the surfaced error, so the
error does not aggregate all failing documents. -/
theorem c2_counterexample :
    run_feat_result [("a.fsf", false), ("b.fsf", false)] =
        Except.error "FEAT failed for a.fsf" ∧
      strContainsSub "FEAT failed for a.fsf" "b.fsf" = false := by
  exact ⟨rfl, by decide⟩

/-- C2 (amended): in execute mode all submitted jobs run to completion (the
executor shutdown waits for them), and the dispatcher succeeds iff every
dispatched job with a truthy path exits zero; but on failure it raises for
the FIRST failing job in completion order, identifying only that document —
outcomes of the remaining jobs are neither collected nor aggregated. -/
theorem c2_dispatcher_amended :
    (∀ jobs : List (String × Bool),
        run_feat_result jobs = Except.ok () ↔ ∀ j ∈ jobs, j.1 ≠ "" → j.2 = true) ∧
      (∀ (pre post : List (String × Bool)) (p : String),
        (∀ j ∈ pre, j.2 = true) → (∀ j ∈ pre, j.1 ≠ "") → p ≠ "" →
        run_feat_result (pre ++ (p, false) :: post) =
          Except.error ("FEAT failed for " ++ p)) := by
  constructor
  · intro jobs
    rw [run_feat_result_eq_collect, run_feat_collect_ok_iff]
    constructor
    · intro h j hj hne
      exact h j (by simp [List.mem_filter, hj, hne])
    · intro h j hj
      rw [List.mem_filter] at hj
      exact h j hj.1 (by simpa using hj.2)
  · intro pre post p hok hne hp
    rw [run_feat_result_eq_collect]
    have hfil : (pre ++ (p, false) :: post).filter (fun j => !(j.1 == "")) =
        pre ++ (p, false) :: post.filter (fun j => !(j.1 == "")) := by
      rw [List.filter_append]
      congr 1
      · exact List.filter_eq_self.mpr (fun j hj => by simpa using hne j hj)
      · simp [List.filter_cons, hp]
    rw [hfil, run_feat_collect_append_ok pre _ hok]
    simp [run_feat_collect]

/-- C2 amended witness: a successful job, then a failing one, then another
failing one; the result names only the first failure. -/
theorem c2_dispatcher_amended_witness :
    run_feat_result [("a.fsf", true), ("b.fsf", false), ("c.fsf", false)] =
      Except.error ("FEAT failed for " ++ "b.fsf") :=
  c2_dispatcher_amended.2 [("a.fsf", true)] [("c.fsf", false)] "b.fsf"
    (by decide) (by decide) (by decide)

/-! ## Claim C10 -/

lemma dropWhile_idem (p : Char → Bool) (l : List Char) :
    (l.dropWhile p).dropWhile p = l.dropWhile p := by
  induction l with
  | nil => rfl
  | cons c t ih =>
    by_cases h : p c = true
    · simp [List.dropWhile_cons, h, ih]
    · simp [List.dropWhile_cons, h]

lemma dropWhile_take_eq_self (p : Char → Bool) (A : List Char) (m : Nat)
    (hA : A.dropWhile p = A) : (A.take m).dropWhile p = A.take m := by
  cases A with
  | nil => simp
  | cons c t =>
    have hc : p c = false := by
      by_contra hcc
      rw [Bool.not_eq_false] at hcc
      rw [List.dropWhile_cons, if_pos hcc] at hA
      have := (List.dropWhile_suffix (l := t) p).length_le
      rw [hA] at this
      simp at this
    cases m with
    | zero => simp
    | succ k => simp [List.take_succ_cons, List.dropWhile_cons, hc]

lemma pyStripChars_no_lead (l : List Char) :
    (pyStripChars l).dropWhile isPyWs = pyStripChars l := by
  unfold pyStripChars
  have hAfix : (l.dropWhile isPyWs).dropWhile isPyWs = l.dropWhile isPyWs :=
    dropWhile_idem _ _
  have h1 : ((l.dropWhile isPyWs).reverse.dropWhile isPyWs) <:+
      (l.dropWhile isPyWs).reverse := List.dropWhile_suffix _
  have h2 : ((l.dropWhile isPyWs).reverse.dropWhile isPyWs).reverse <+:
      (l.dropWhile isPyWs).reverse.reverse := List.reverse_prefix.mpr h1
  rw [List.reverse_reverse] at h2
  rw [List.prefix_iff_eq_take.mp h2]
  exact dropWhile_take_eq_self _ _ _ hAfix

lemma pyStripChars_idem (l : List Char) :
    pyStripChars (pyStripChars l) = pyStripChars l := by
  conv_lhs => rw [pyStripChars]
  rw [pyStripChars_no_lead]
  show ((pyStripChars l).reverse.dropWhile isPyWs).reverse = pyStripChars l
  unfold pyStripChars
  rw [List.reverse_reverse, dropWhile_idem]

lemma pyStrip_idem (s : String) : pyStrip (pyStrip s) = pyStrip s := by
  unfold pyStrip
  congr 1
  show pyStripChars (pyStripChars s.toList) = pyStripChars s.toList
  exact pyStripChars_idem s.toList

lemma mem_stripNonempty {l : List String} {x : String} (hx : x ∈ stripNonempty l) :
    x ≠ "" ∧ pyStrip x = x := by
  unfold stripNonempty at hx
  rw [List.mem_filter] at hx
  obtain ⟨hmem, hne⟩ := hx
  rw [List.mem_map] at hmem
  obtain ⟨y, _, rfl⟩ := hmem
  exact ⟨by simpa using hne, pyStrip_idem y⟩

lemma commaBranch_some {tokens l : List String} (h : commaBranch tokens = some l) :
    l ≠ [] ∧ ∀ s ∈ l, s ≠ "" ∧ pyStrip s = s := by
  simp only [commaBranch] at h
  split at h
  · exact absurd h (by simp)
  · rename_i hne
    cases h
    refine ⟨by simpa using hne, fun s hs => ?_⟩
    rw [List.mem_flatMap] at hs
    obtain ⟨t, _, hst⟩ := hs
    exact mem_stripNonempty hst

lemma fileOrComma_some {fsfile : String → Option String} {tokens l : List String}
    (h : fileOrComma fsfile tokens = some l) :
    l ≠ [] ∧ ∀ s ∈ l, s ≠ "" ∧ pyStrip s = s := by
  match tokens with
  | [] =>
    simp only [fileOrComma] at h
    exact commaBranch_some h
  | [t] =>
    simp only [fileOrComma] at h
    cases hf : fsfile t with
    | some raw =>
      rw [hf] at h
      simp only at h
      split at h
      · exact absurd h (by simp)
      · rename_i hne
        cases h
        exact ⟨by simpa using hne, fun s hs => mem_stripNonempty hs⟩
    | none =>
      rw [hf] at h
      exact commaBranch_some h
  | t₁ :: t₂ :: ts =>
    simp only [fileOrComma] at h
    exact commaBranch_some h

/-- C10 counterexample: the Subject Resolver does not deduplicate — the
comma string `"a,a"` resolves to the list `["a", "a"]`, which is not a list
of distinct subject identifiers. -/
theorem c10_counterexample :
    parse_subjects_arg (fun _ => none) (.str "a,a") = some ["a", "a"] ∧
      ¬ (["a", "a"] : List String).Nodup := by
  exact ⟨rfl, by simp⟩

/-- C10 (amended): for every input, the resolver returns either `null` or a
non-empty ordered list of subject identifiers with surrounding whitespace
trimmed, duplicates preserved in input order (tokens are split on commas, a
single token naming an existing file on commas and/or newlines); an empty
result is always returned as `null`, never as an empty list. -/
theorem c10_subjects_amended (fsfile : String → Option String) (arg : SubjectsArg)
    (l : List String) (h : parse_subjects_arg fsfile arg = some l) :
    l ≠ [] ∧ ∀ s ∈ l, s ≠ "" ∧ pyStrip s = s := by
  unfold parse_subjects_arg at h
  split at h
  · exact absurd h (by simp)
  · exact fileOrComma_some h

/-- C10 amended witness: the comma string `"a,b"` resolves to `["a", "b"]`,
a non-empty list of trimmed identifiers. -/
theorem c10_subjects_amended_witness :
    (["a", "b"] : List String) ≠ [] ∧
      ∀ s ∈ (["a", "b"] : List String), s ≠ "" ∧ pyStrip s = s :=
  c10_subjects_amended (fun _ => none) (.str "a,b") ["a", "b"] rfl

/-! ## Claim C9 -/

lemma extractorTaskOk_iff (file : String) (tf : Option (List String)) :
    extractorTaskOk file tf = true ↔
      (∀ ts, tf = some ts → ts ≠ [] →
        ∃ t ∈ ts, strContainsSub file ("task-" ++ t) = true) := by
  cases tf with
  | none => simp [extractorTaskOk]
  | some ts =>
    cases ts with
    | nil => simp [extractorTaskOk]
    | cons a l => simp [extractorTaskOk, List.any_eq_true]

lemma extractorRunOk_iff (file : String) (rf : Option (List Int)) :
    extractorRunOk file rf = true ↔
      (∀ rs, rf = some rs → rs ≠ [] →
        ∃ r ∈ rs, strContainsSub file ("run-" ++ pyFormat02d r) = true) := by
  cases rf with
  | none => simp [extractorRunOk]
  | some rs =>
    cases rs with
    | nil => simp [extractorRunOk]
    | cons a l => simp [extractorRunOk, List.any_eq_true]

/-- C9 counterexample: with task filter `["hand"]`, the Parameter Extractor
accepts `sub-01_ses-01_task-handx_run-01_bold.nii.gz` (the raw substring
`task-hand` occurs in the name), but the Filter Matcher composed with the
Entity Parser rejects it (the parsed task entity is `handx`, which is not in
the filter list) — so the extractor's acceptance is not equivalent to
`match_filters` composed with `parse_bids_entities`. -/
theorem c9_counterexample :
    extractor_accepts "sub-01_ses-01_task-handx_run-01_bold.nii.gz"
        (some ["hand"]) none = true ∧
      filter_matcher_accepts "sub-01_ses-01_task-handx_run-01_bold.nii.gz"
        (some ["hand"]) none = false := by
  exact ⟨rfl, rfl⟩

/-- C9 (amended): the Parameter Extractor processes a directory entry iff the
name ends in `_bold.nii.gz` and, for each supplied non-empty filter list,
some task `t` has `task-<t>` as a raw substring of the filename and some run
`r` has `run-<r padded to two digits>` as a raw substring; this raw substring
test is what the code implements, and it is not equivalent to the Filter
Matcher of section 4.2 composed with the Entity Parser. -/
theorem c9_extractor_acceptance_amended (file : String) (tf : Option (List String))
    (rf : Option (List Int)) :
    extractor_accepts file tf rf = true ↔
      ((∀ ts, tf = some ts → ts ≠ [] →
          ∃ t ∈ ts, strContainsSub file ("task-" ++ t) = true) ∧
        (∀ rs, rf = some rs → rs ≠ [] →
          ∃ r ∈ rs, strContainsSub file ("run-" ++ pyFormat02d r) = true) ∧
        pyEndsWith file "_bold.nii.gz" = true) := by
  unfold extractor_accepts
  rw [Bool.and_eq_true, Bool.and_eq_true, extractorTaskOk_iff, extractorRunOk_iff]
  tauto

/-! ## Claim C1 -/

lemma fsHas_write (fs : FS) (p q c : String) :
    fsHas (fsWrite fs q c) p = ((q == p) || fsHas fs p) := by
  simp [fsHas, fsWrite]

lemma extract_step_has_mono {cfg : DummyConfig} {od : String}
    {tf : Option (List String)} {rf : Option (List Int)}
    (acc : FS × List String) (item : ScanItem) (p : String)
    (h : fsHas acc.1 p = true) :
    fsHas (extract_step cfg od tf rf acc item).1 p = true := by
  unfold extract_step
  by_cases hacc : extractor_accepts item.fileName tf rf = true
  · rw [if_pos hacc]
    simp only
    by_cases hhas :
        fsHas acc.1 (scan_config_path od item.subject item.session item.fileName) = true
    · rw [if_pos hhas]; exact h
    · rw [if_neg hhas]
      cases hh : item.header with
      | some hdr => simp [fsHas_write, h]
      | none => exact h
  · rw [if_neg hacc]; exact h

lemma extract_fold_has_mono {cfg : DummyConfig} {od : String}
    {tf : Option (List String)} {rf : Option (List Int)} :
    ∀ (items : List ScanItem) (acc : FS × List String) (p : String),
      fsHas acc.1 p = true →
      fsHas ((items.foldl (extract_step cfg od tf rf) acc).1) p = true := by
  intro items
  induction items with
  | nil => intro acc p h; exact h
  | cons hd tl ih =>
    intro acc p h
    exact ih _ p (extract_step_has_mono acc hd p h)

lemma extract_fold_covers {cfg : DummyConfig} {od : String}
    {tf : Option (List String)} {rf : Option (List Int)} :
    ∀ (items : List ScanItem) (acc : FS × List String) (item : ScanItem),
      item ∈ items →
      extractor_accepts item.fileName tf rf = true →
      item.header.isSome = true →
      fsHas ((items.foldl (extract_step cfg od tf rf) acc).1)
        (scan_config_path od item.subject item.session item.fileName) = true := by
  intro items
  induction items with
  | nil => intro acc item h; simp at h
  | cons hd tl ih =>
    intro acc item hmem hacc hsome
    rw [List.mem_cons] at hmem
    rw [List.foldl_cons]
    rcases hmem with rfl | hmem
    · apply extract_fold_has_mono
      unfold extract_step
      rw [if_pos hacc]
      simp only
      by_cases hhas :
          fsHas acc.1 (scan_config_path od item.subject item.session item.fileName) = true
      · rw [if_pos hhas]; exact hhas
      · rw [if_neg hhas]
        cases hh : item.header with
        | some hdr => simp [fsHas_write]
        | none => rw [hh] at hsome; simp at hsome
    · exact ih _ item hmem hacc hsome

lemma extract_fold_fixpoint {cfg : DummyConfig} {od : String}
    {tf : Option (List String)} {rf : Option (List Int)} :
    ∀ (items : List ScanItem) (fs : FS),
      (∀ item ∈ items, extractor_accepts item.fileName tf rf = true →
        item.header.isSome = true →
        fsHas fs (scan_config_path od item.subject item.session item.fileName) = true) →
      items.foldl (extract_step cfg od tf rf) (fs, []) = (fs, []) := by
  intro items
  induction items with
  | nil => intro fs _; rfl
  | cons hd tl ih =>
    intro fs hcov
    have hstep : extract_step cfg od tf rf (fs, []) hd = (fs, []) := by
      unfold extract_step
      by_cases hacc : extractor_accepts hd.fileName tf rf = true
      · rw [if_pos hacc]
        simp only
        by_cases hhas :
            fsHas (fs, ([] : List String)).1
              (scan_config_path od hd.subject hd.session hd.fileName) = true
        · rw [if_pos hhas]
        · rw [if_neg hhas]
          cases hh : hd.header with
          | some hdr =>
            exact absurd (hcov hd (by simp) hacc (by simp [hh])) hhas
          | none => rfl
      · rw [if_neg hacc]
    rw [List.foldl_cons, hstep]
    exact ih fs (fun item hmem => hcov item (by simp [hmem]))

lemma gen_fsf_foldl (od task : String) (run : Int) (sid sesid space : String)
    (render : String → String) :
    ∀ (blocks : List String) (acc : FS × List String),
    blocks.foldl
      (fun acc block =>
        let output_fsf_path := pathJoin (subject_design_output od space)
          (output_fsf_filename sid sesid task run block)
        (fsWrite acc.1 output_fsf_path (render block), acc.2 ++ [output_fsf_path])) acc =
    ((blocks.map (fun b => (pathJoin (subject_design_output od space)
        (output_fsf_filename sid sesid task run b), render b))).reverse ++ acc.1,
      acc.2 ++ blocks.map (fun b => pathJoin (subject_design_output od space)
        (output_fsf_filename sid sesid task run b))) := by
  intro blocks
  induction blocks with
  | nil => intro acc; simp
  | cons b bs ih =>
    intro acc
    rw [List.foldl_cons, ih]
    simp [fsWrite]

lemma generate_fsf_writes_spec (od task : String) (run : Int)
    (sid sesid space : String) (cb : List String) (render : String → String) (fs : FS) :
    generate_fsf_writes od task run sid sesid space cb render fs =
      (((defaultBlocks cb).map (fun b => (pathJoin (subject_design_output od space)
          (output_fsf_filename sid sesid task run b), render b))).reverse ++ fs,
        (defaultBlocks cb).map (fun b => pathJoin (subject_design_output od space)
          (output_fsf_filename sid sesid task run b))) := by
  unfold generate_fsf_writes
  rw [gen_fsf_foldl]
  simp

lemma fsGet_append_append (l m : FS) (q : String) :
    fsGet (l ++ l ++ m) q = fsGet (l ++ m) q := by
  unfold fsGet
  rw [List.append_assoc, List.find?_append, List.find?_append]
  cases h : l.find? (fun kv => kv.1 == q) with
  | some kv => simp [h]
  | none => simp [h, List.find?_append]

lemma defaultBlocks_ne_nil (cb : List String) : defaultBlocks cb ≠ [] := by
  unfold defaultBlocks
  cases cb <;> simp

/-- C1 counterexample: the Design Synthesizer's `generate_fsf` writes design
documents unconditionally.  After a first pass has written the design file,
a second identical request finds the target path present, yet writes it
again — the request is not a no-op and the file is rewritten on the second
pass. -/
theorem c1_counterexample :
    fsHas (generate_fsf_writes "/out" "rest" 1 "sub-001" "ses-001" "native" ["standard"]
        (fun _ => "design") []).1
      "/out/fsl_feat_v6.0.7.4/subject_designs/space-native/sub-001_ses-001_task-rest_run-01.fsf"
      = true ∧
    (generate_fsf_writes "/out" "rest" 1 "sub-001" "ses-001" "native" ["standard"]
        (fun _ => "design")
        (generate_fsf_writes "/out" "rest" 1 "sub-001" "ses-001" "native" ["standard"]
          (fun _ => "design") []).1).2 =
      ["/out/fsl_feat_v6.0.7.4/subject_designs/space-native/sub-001_ses-001_task-rest_run-01.fsf"] := by
  exact ⟨rfl, rfl⟩

/-- C1 (amended): the Parameter Extractor is idempotent exactly as claimed —
a second pass over an unchanged tree performs no write and leaves the
configuration tree unchanged.  The Design Synthesizer's rendering is
deterministic, so a second pass yields the same final design-file set and
contents as one pass; but it always writes (there is no skip-if-exists
check in `generate_fsf`), so every requested design file is rewritten on
the second pass rather than being a no-op. -/
theorem c1_idempotence_amended :
    (∀ (cfg : DummyConfig) (od : String) (tf : Option (List String))
        (rf : Option (List Int)) (items : List ScanItem) (fs : FS),
        extract_and_write_scan_info cfg od tf rf items
            (extract_and_write_scan_info cfg od tf rf items fs).1 =
          ((extract_and_write_scan_info cfg od tf rf items fs).1, [])) ∧
      (∀ (od task : String) (run : Int) (sid sesid space : String)
          (cb : List String) (render : String → String) (fs : FS),
        (generate_fsf_writes od task run sid sesid space cb render
            (generate_fsf_writes od task run sid sesid space cb render fs).1).2 =
          (generate_fsf_writes od task run sid sesid space cb render fs).2 ∧
        (generate_fsf_writes od task run sid sesid space cb render fs).2 ≠ [] ∧
        ∀ q, fsGet (generate_fsf_writes od task run sid sesid space cb render
            (generate_fsf_writes od task run sid sesid space cb render fs).1).1 q =
          fsGet (generate_fsf_writes od task run sid sesid space cb render fs).1 q) := by
  constructor
  · intro cfg od tf rf items fs
    unfold extract_and_write_scan_info
    exact extract_fold_fixpoint items _
      (fun item hmem hacc hsome => extract_fold_covers items (fs, []) item hmem hacc hsome)
  · intro od task run sid sesid space cb render fs
    rw [generate_fsf_writes_spec, generate_fsf_writes_spec]
    refine ⟨rfl, by simp [defaultBlocks_ne_nil], fun q => ?_⟩
    simp only
    rw [← List.append_assoc]
    exact fsGet_append_append _ fs q

/-! ## Claim C7 -/

lemma findSome?_eq_some_mem {α β : Type} (f : α → Option β) :
    ∀ (l : List α) (b : β), l.findSome? f = some b → ∃ a ∈ l, f a = some b := by
  intro l
  induction l with
  | nil => intro b h; simp [List.findSome?] at h
  | cons a as ih =>
    intro b h
    rw [List.findSome?_cons] at h
    revert h
    cases hf : f a with
    | some c => intro h; exact ⟨a, by simp, hf.trans h⟩
    | none => intro h; obtain ⟨x, hx, hfx⟩ := ih b h; exact ⟨x, by simp [hx], hfx⟩

lemma bodyMatch_ne_nil {t : List Char} {cs : List Char} (h : bodyMatch t = some cs) :
    cs ≠ [] := by
  simp only [bodyMatch] at h
  obtain ⟨i, hi, hfi⟩ := findSome?_eq_some_mem _ _ _ h
  rw [List.mem_range] at hi
  by_cases hclose :
      closeOk (t.drop ((t.takeWhile captureClassB).length - i)) = true
  · rw [if_pos hclose] at hfi
    cases hfi
    have hm : (t.takeWhile captureClassB).length - i ≠ 0 := by omega
    have ht : t ≠ [] := by
      intro ht0
      rw [ht0] at hi
      simp at hi
    rw [Ne, List.take_eq_nil_iff]
    tauto
  · rw [if_neg hclose] at hfi
    exact absurd hfi (by simp)

lemma tailMatch_ne_nil {r cs : List Char} (h : tailMatch r = some cs) : cs ≠ [] := by
  unfold tailMatch at h
  split at h <;> exact bodyMatch_ne_nil h

lemma matchOutputdirLine_ne_empty {line : String} {d : String}
    (h : matchOutputdirLine line = some d) : d ≠ "" := by
  simp only [matchOutputdirLine] at h
  split at h
  · split at h
    · exact absurd h (by simp)
    · split at h
      · rw [Option.map_eq_some'] at h
        obtain ⟨cs, hcs, rfl⟩ := h
        simp only [wsThenTail] at hcs
        obtain ⟨i, _, hfi⟩ := findSome?_eq_some_mem _ _ _ hcs
        have hcs' := tailMatch_ne_nil hfi
        intro hmk
        apply hcs'
        have hts : (String.mk cs).toList = ("" : String).toList := by rw [hmk]
        simpa using hts
      · exact absurd h (by simp)
  · exact absurd h (by simp)

lemma feat_outputdir_ne_empty {docLines : List String} {d : String}
    (h : feat_outputdir_from_fsf docLines = some d) : d ≠ "" := by
  unfold feat_outputdir_from_fsf at h
  obtain ⟨line, _, hline⟩ := findSome?_eq_some_mem _ _ _ h
  exact matchOutputdirLine_ne_empty hline

lemma feat_is_complete_eq (fs : DirState) (d : String) :
    feat_is_complete fs d =
      (pathExistsB fs d && isDirB fs d && pathExistsB fs (pathJoin d "design.fsf") &&
        pathExistsB fs (pathJoin d "stats") &&
        (pathExistsB fs (pathJoin d "filtered_func_data.nii.gz") ||
          pathExistsB fs (pathJoin d "report.html"))) := by
  unfold feat_is_complete
  cases h1 : pathExistsB fs d <;> cases h2 : isDirB fs d <;>
    cases h3 : pathExistsB fs (pathJoin d "design.fsf") <;>
    cases h4 : pathExistsB fs (pathJoin d "stats") <;>
    cases h5 : pathExistsB fs (pathJoin d "filtered_func_data.nii.gz") <;>
    cases h6 : pathExistsB fs (pathJoin d "report.html") <;> simp

lemma isDirB_pathExistsB {fs : DirState} {d : String} (h : isDirB fs d = true) :
    pathExistsB fs d = true := by
  unfold pathExistsB
  unfold isDirB at h
  rw [Bool.or_eq_true]
  exact Or.inr h

lemma feat_is_complete_iff (fs : DirState) (d : String) :
    feat_is_complete fs d = true ↔
      (isDirB fs d = true ∧
        pathExistsB fs (pathJoin d "design.fsf") = true ∧
        pathExistsB fs (pathJoin d "stats") = true ∧
        (pathExistsB fs (pathJoin d "filtered_func_data.nii.gz") = true ∨
          pathExistsB fs (pathJoin d "report.html") = true)) := by
  rw [feat_is_complete_eq]
  simp only [Bool.and_eq_true, Bool.or_eq_true]
  constructor
  · rintro ⟨⟨⟨⟨_, h2⟩, h3⟩, h4⟩, h5⟩
    exact ⟨h2, h3, h4, h5⟩
  · rintro ⟨h2, h3, h4, h5⟩
    exact ⟨⟨⟨⟨isDirB_pathExistsB h2, h2⟩, h3⟩, h4⟩, h5⟩

/-- C7: in execute mode, the Job Dispatcher parses the declared output
directory from the document body (first structural match of the
`set fmri(outputdir)` line wins) and skips the job — does not invoke the
external binary — if and only if that directory is a directory containing a
design copy (`design.fsf`), a statistics entry (`stats`), and either a
primary output volume (`filtered_func_data.nii.gz`) or a summary report
(`report.html`), and the force flag is not set. -/
theorem c7_completion_skip (fs : DirState) (docLines : List String) (force : Bool) :
    run_single_feat_invokes fs docLines force = false ↔
      ((∃ d, feat_outputdir_from_fsf docLines = some d ∧
          isDirB fs d = true ∧
          pathExistsB fs (pathJoin d "design.fsf") = true ∧
          pathExistsB fs (pathJoin d "stats") = true ∧
          (pathExistsB fs (pathJoin d "filtered_func_data.nii.gz") = true ∨
            pathExistsB fs (pathJoin d "report.html") = true)) ∧
        force = false) := by
  unfold run_single_feat_invokes
  cases ho : feat_outputdir_from_fsf docLines with
  | none => simp
  | some d =>
    dsimp only
    have hne : d ≠ "" := feat_outputdir_ne_empty ho
    by_cases hcond : (d ≠ "" ∧ feat_is_complete fs d = true ∧ force = false)
    · rw [if_pos hcond]
      simp only [eq_self_iff_true, true_iff]
      exact ⟨⟨d, rfl, (feat_is_complete_iff fs d).mp hcond.2.1⟩, hcond.2.2⟩
    · rw [if_neg hcond]
      simp only [Bool.true_eq_false, false_iff]
      rintro ⟨⟨e, he, hparts⟩, hforce⟩
      rw [Option.some_inj] at he
      rw [← he] at hparts
      exact hcond ⟨hne, (feat_is_complete_iff fs d).mpr hparts, hforce⟩

/-! ## Claim C8 -/

lemma isPrefixOf_append_self (l r : List Char) : l.isPrefixOf (l ++ r) = true := by
  induction l with
  | nil => simp [List.isPrefixOf]
  | cons c t ih => simp [List.isPrefixOf, ih]

lemma takeWhile_append_stop {p : Char → Bool} :
    ∀ (l : List Char) (c : Char) (r : List Char), (∀ x ∈ l, p x = true) → p c = false →
      ((l ++ c :: r).takeWhile p = l ∧ (l ++ c :: r).dropWhile p = c :: r) := by
  intro l
  induction l with
  | nil =>
    intro c r _ hc
    simp [List.takeWhile_cons, List.dropWhile_cons, hc]
  | cons a t ih =>
    intro c r hl hc
    have ha : p a = true := hl a (by simp)
    obtain ⟨h1, h2⟩ := ih c r (fun x hx => hl x (by simp [hx])) hc
    simp [List.takeWhile_cons, List.dropWhile_cons, ha, h1, h2]

lemma tryMatch_some (pfx tok : List Char) (valid : Char → Bool) (c : Char) (r : List Char)
    (htok : tok ≠ []) (hval : ∀ x ∈ tok, valid x = true) (hstop : valid c = false)
    (hdelim : isDelim c = true) :
    tryMatch pfx valid (pfx ++ (tok ++ c :: r)) = some tok := by
  unfold tryMatch
  rw [if_pos (isPrefixOf_append_self pfx _)]
  simp only [List.drop_left]
  obtain ⟨h1, h2⟩ := takeWhile_append_stop tok c r hval hstop
  rw [h1, h2]
  rw [if_neg (by simp [List.isEmpty_iff, htok])]
  simp [hdelim]

lemma tryMatch_none_of_prefix_false {pfx : List Char} {valid : Char → Bool}
    {s : List Char} (h : pfx.isPrefixOf s = false) : tryMatch pfx valid s = none := by
  simp [tryMatch, h]

lemma isPrefixOf_false_head {p : Char} {ps : List Char} {a : Char} {s : List Char}
    (h : (p == a) = false) : (p :: ps).isPrefixOf (a :: s) = false := by
  simp [List.isPrefixOf, h]

lemma isPrefixOf_false_second {p q : Char} {ps : List Char} {a b : Char} {s : List Char}
    (h : (q == b) = false) : (p :: q :: ps).isPrefixOf (a :: b :: s) = false := by
  simp [List.isPrefixOf, h]

lemma scanFor_of_tryMatch {pfx : List Char} {valid : Char → Bool} {s t : List Char}
    (h : tryMatch pfx valid s = some t) : scanFor pfx valid true s = some t := by
  cases s with
  | nil => simpa [scanFor] using h
  | cons c r => simp [scanFor, h]

lemma scanFor_cons_false (pfx : List Char) (valid : Char → Bool) (c : Char)
    (rest : List Char) :
    scanFor pfx valid false (c :: rest) = scanFor pfx valid (isDelim c) rest := by
  simp [scanFor]

lemma scanFor_cons_true_fail {pfx : List Char} {valid : Char → Bool} {c : Char}
    {rest : List Char} (h : tryMatch pfx valid (c :: rest) = none) :
    scanFor pfx valid true (c :: rest) = scanFor pfx valid (isDelim c) rest := by
  simp [scanFor, h]

lemma scanFor_skip_nodelim {pfx : List Char} {valid : Char → Bool} :
    ∀ (l r : List Char), (∀ c ∈ l, isDelim c = false) →
      scanFor pfx valid false (l ++ r) = scanFor pfx valid false r := by
  intro l
  induction l with
  | nil => intro r _; rfl
  | cons c t ih =>
    intro r hl
    rw [List.cons_append, scanFor_cons_false, hl c (by simp)]
    exact ih r (fun x hx => hl x (by simp [hx]))

lemma scanFor_skip_segment {pfx : List Char} {valid : Char → Bool}
    (a : Char) (l r : List Char) (ha : isDelim a = false)
    (hl : ∀ c ∈ l, isDelim c = false)
    (hfail : tryMatch pfx valid (a :: (l ++ '_' :: r)) = none) :
    scanFor pfx valid true (a :: (l ++ '_' :: r)) = scanFor pfx valid true r := by
  rw [scanFor_cons_true_fail hfail, ha, scanFor_skip_nodelim l ('_' :: r) hl,
    scanFor_cons_false, show isDelim '_' = true from by decide]

lemma isDelim_eq_false_of_alnum {c : Char} (h : isAlnumAscii c = true) :
    isDelim c = false := by
  by_contra hc
  rw [Bool.not_eq_false] at hc
  unfold isDelim at hc
  rw [Bool.or_eq_true, decide_eq_true_iff, decide_eq_true_iff] at hc
  rcases hc with rfl | rfl
  · exact absurd h (by decide)
  · exact absurd h (by decide)

lemma isDelim_eq_false_of_digit {c : Char} (h : c.isDigit = true) :
    isDelim c = false := by
  by_contra hc
  rw [Bool.not_eq_false] at hc
  unfold isDelim at hc
  rw [Bool.or_eq_true, decide_eq_true_iff, decide_eq_true_iff] at hc
  rcases hc with rfl | rfl
  · exact absurd h (by decide)
  · exact absurd h (by decide)

lemma nodelim_of_alnum {tok : List Char} (h : ∀ c ∈ tok, isAlnumAscii c = true) :
    ∀ c ∈ tok, isDelim c = false :=
  fun c hc => isDelim_eq_false_of_alnum (h c hc)

lemma nodelim_cons3 (c1 c2 c3 : Char) (tok : List Char)
    (h1 : isDelim c1 = false) (h2 : isDelim c2 = false) (h3 : isDelim c3 = false)
    (htok : ∀ c ∈ tok, isDelim c = false) :
    ∀ c ∈ c1 :: c2 :: c3 :: tok, isDelim c = false := by
  intro c hc
  simp only [List.mem_cons] at hc
  rcases hc with rfl | rfl | rfl | hc
  exacts [h1, h2, h3, htok c hc]

lemma nodelim_cons4 (c1 c2 c3 c4 : Char) (tok : List Char)
    (h1 : isDelim c1 = false) (h2 : isDelim c2 = false) (h3 : isDelim c3 = false)
    (h4 : isDelim c4 = false) (htok : ∀ c ∈ tok, isDelim c = false) :
    ∀ c ∈ c1 :: c2 :: c3 :: c4 :: tok, isDelim c = false := by
  intro c hc
  simp only [List.mem_cons] at hc
  rcases hc with rfl | rfl | rfl | rfl | hc
  exacts [h1, h2, h3, h4, htok c hc]

lemma digitChar_isDigit {d : Nat} (h : d < 10) : (digitChar d).isDigit = true := by
  interval_cases d <;> decide

lemma digitChar_toNat {d : Nat} (h : d < 10) : (digitChar d).toNat = 48 + d := by
  interval_cases d <;> decide

lemma parseNat_reverse_map (L : List Nat) (hL : ∀ d ∈ L, d < 10) :
    parseNatDigits ((L.map digitChar).reverse) = Nat.ofDigits 10 L := by
  induction L with
  | nil => simp [parseNatDigits, Nat.ofDigits]
  | cons d T ih =>
    rw [List.map_cons, List.reverse_cons]
    unfold parseNatDigits
    rw [List.foldl_append]
    have hd : d < 10 := hL d (by simp)
    have ihh := ih (fun x hx => hL x (by simp [hx]))
    unfold parseNatDigits at ihh
    rw [ihh, Nat.ofDigits_cons]
    simp [digitChar_toNat hd]
    ring

lemma parseNat_natDecimal (n : Nat) : parseNatDigits (natDecimal n) = n := by
  unfold natDecimal
  by_cases h : n = 0
  · rw [if_pos h, h]; rfl
  · rw [if_neg h]
    rw [parseNat_reverse_map _ (fun d hd => Nat.digits_lt_base (by norm_num) hd)]
    exact Nat.ofDigits_digits 10 n

lemma natDecimal_digits (n : Nat) : ∀ c ∈ natDecimal n, c.isDigit = true := by
  unfold natDecimal
  split
  · intro c hc; simp at hc; subst hc; decide
  · intro c hc
    rw [List.mem_reverse, List.mem_map] at hc
    obtain ⟨d, hd, rfl⟩ := hc
    exact digitChar_isDigit (Nat.digits_lt_base (by norm_num) hd)

lemma natDecimal_ne_nil (n : Nat) : natDecimal n ≠ [] := by
  unfold natDecimal
  split
  · simp
  · rename_i h
    simp only [Ne, List.reverse_eq_nil_iff, List.map_eq_nil_iff]
    exact Nat.digits_ne_nil_iff_ne_zero.mpr h

lemma format02_digits (n : Nat) : ∀ c ∈ format02 n, c.isDigit = true := by
  unfold format02
  simp only
  split
  · intro c hc
    simp only [List.mem_cons] at hc
    rcases hc with rfl | hc
    · decide
    · exact natDecimal_digits n c hc
  · exact natDecimal_digits n

lemma format02_ne_nil (n : Nat) : format02 n ≠ [] := by
  unfold format02
  simp only
  split
  · simp
  · exact natDecimal_ne_nil n

lemma parseNat_format02 (n : Nat) : parseNatDigits (format02 n) = n := by
  unfold format02
  simp only
  split
  · exact parseNat_natDecimal n
  · exact parseNat_natDecimal n

/-- C8: Entity Parser round trip with anchored matching.  For every filename
built from an entity set by the scan naming convention
`sub-S_ses-E_task-T_run-NN_bold.nii.gz` (alphanumeric tokens, run number
zero-padded to two digits), `parse_bids_entities` returns exactly that
entity set.  Each entity match is anchored to a complete path segment, so in
particular the run token is read in full (`run-1` is never matched inside
`run-10` — see the witness at run 10). -/
theorem c8_entity_parser_roundtrip (S E T : List Char) (run : Nat)
    (hS : S ≠ []) (hSv : ∀ c ∈ S, isAlnumAscii c = true)
    (hE : E ≠ []) (hEv : ∀ c ∈ E, isAlnumAscii c = true)
    (hT : T ≠ []) (hTv : ∀ c ∈ T, isAlnumAscii c = true) :
    parse_bids_entities (buildScanFilename S E T run) =
      ⟨some S, some E, some T, some (run : Int)⟩ := by
  set r3 : List Char := runTag ++ (format02 run ++ '_' :: "bold.nii.gz".toList) with hr3
  set r2 : List Char := taskTag ++ (T ++ '_' :: r3) with hr2
  set r1 : List Char := sesTag ++ (E ++ '_' :: r2) with hr1
  have hw : buildScanFilename S E T run = subTag ++ (S ++ '_' :: r1) := rfl
  have hshape1 : subTag ++ (S ++ '_' :: r1) =
      's' :: (('u' :: 'b' :: '-' :: S) ++ '_' :: r1) := by simp [subTag]
  have hshape2 : r1 = 's' :: (('e' :: 's' :: '-' :: E) ++ '_' :: r2) := by
    rw [hr1]; simp [sesTag]
  have hshape3 : r2 = 't' :: (('a' :: 's' :: 'k' :: '-' :: T) ++ '_' :: r3) := by
    rw [hr2]; simp [taskTag]
  have hsubNd : ∀ c ∈ 'u' :: 'b' :: '-' :: S, isDelim c = false :=
    nodelim_cons3 'u' 'b' '-' S (by decide) (by decide) (by decide) (nodelim_of_alnum hSv)
  have hsesNd : ∀ c ∈ 'e' :: 's' :: '-' :: E, isDelim c = false :=
    nodelim_cons3 'e' 's' '-' E (by decide) (by decide) (by decide) (nodelim_of_alnum hEv)
  have htaskNd : ∀ c ∈ 'a' :: 's' :: 'k' :: '-' :: T, isDelim c = false :=
    nodelim_cons4 'a' 's' 'k' '-' T (by decide) (by decide) (by decide) (by decide)
      (nodelim_of_alnum hTv)
  have hsubj : scanFor subTag isAlnumAscii true (subTag ++ (S ++ '_' :: r1)) = some S :=
    scanFor_of_tryMatch
      (tryMatch_some subTag S isAlnumAscii '_' r1 hS hSv (by decide) (by decide))
  have hses1 : scanFor sesTag isAlnumAscii true (subTag ++ (S ++ '_' :: r1)) =
      scanFor sesTag isAlnumAscii true r1 := by
    rw [hshape1]
    apply scanFor_skip_segment 's' _ _ (by decide) hsubNd
    apply tryMatch_none_of_prefix_false
    rw [show ('s' : Char) :: (('u' :: 'b' :: '-' :: S) ++ '_' :: r1) =
      's' :: 'u' :: (('b' :: '-' :: S) ++ '_' :: r1) from by simp]
    exact isPrefixOf_false_second (by decide)
  have hses2 : scanFor sesTag isAlnumAscii true r1 = some E := by
    rw [hr1]
    exact scanFor_of_tryMatch
      (tryMatch_some sesTag E isAlnumAscii '_' r2 hE hEv (by decide) (by decide))
  have htask1 : scanFor taskTag isAlnumAscii true (subTag ++ (S ++ '_' :: r1)) =
      scanFor taskTag isAlnumAscii true r1 := by
    rw [hshape1]
    apply scanFor_skip_segment 's' _ _ (by decide) hsubNd
    exact tryMatch_none_of_prefix_false (isPrefixOf_false_head (by decide))
  have htask2 : scanFor taskTag isAlnumAscii true r1 =
      scanFor taskTag isAlnumAscii true r2 := by
    rw [hshape2]
    apply scanFor_skip_segment 's' _ _ (by decide) hsesNd
    exact tryMatch_none_of_prefix_false (isPrefixOf_false_head (by decide))
  have htask3 : scanFor taskTag isAlnumAscii true r2 = some T := by
    rw [hr2]
    exact scanFor_of_tryMatch
      (tryMatch_some taskTag T isAlnumAscii '_' r3 hT hTv (by decide) (by decide))
  have hrun1 : scanFor runTag Char.isDigit true (subTag ++ (S ++ '_' :: r1)) =
      scanFor runTag Char.isDigit true r1 := by
    rw [hshape1]
    apply scanFor_skip_segment 's' _ _ (by decide) hsubNd
    exact tryMatch_none_of_prefix_false (isPrefixOf_false_head (by decide))
  have hrun2 : scanFor runTag Char.isDigit true r1 =
      scanFor runTag Char.isDigit true r2 := by
    rw [hshape2]
    apply scanFor_skip_segment 's' _ _ (by decide) hsesNd
    exact tryMatch_none_of_prefix_false (isPrefixOf_false_head (by decide))
  have hrun3 : scanFor runTag Char.isDigit true r2 =
      scanFor runTag Char.isDigit true r3 := by
    rw [hshape3]
    apply scanFor_skip_segment 't' _ _ (by decide) htaskNd
    exact tryMatch_none_of_prefix_false (isPrefixOf_false_head (by decide))
  have hrun4 : scanFor runTag Char.isDigit true r3 = some (format02 run) := by
    rw [hr3]
    exact scanFor_of_tryMatch
      (tryMatch_some runTag (format02 run) Char.isDigit '_' "bold.nii.gz".toList
        (format02_ne_nil run) (format02_digits run) (by decide) (by decide))
  unfold parse_bids_entities
  rw [hw, hsubj, hses1, hses2, htask1, htask2, htask3, hrun1, hrun2, hrun3, hrun4]
  simp [parseNat_format02]

/-- C8 witness: the entity set `(a1, b2, rest, run 10)` round-trips through
its constructed filename; the parsed run is 10, not 1, showing `run-1` is
not matched inside `run-10`. -/
theorem c8_entity_parser_roundtrip_witness :
    parse_bids_entities (buildScanFilename ['a', '1'] ['b', '2']
        ['r', 'e', 's', 't'] 10) =
      ⟨some ['a', '1'], some ['b', '2'], some ['r', 'e', 's', 't'], some (10 : Int)⟩ :=
  c8_entity_parser_roundtrip ['a', '1'] ['b', '2'] ['r', 'e', 's', 't'] 10
    (by decide) (by decide) (by decide) (by decide) (by decide) (by decide)

/-! ## Claim C4 -/

lemma runsLookup_isSome_iff (m : RunsMap) (r : Int) :
    (runsLookup m r).isSome = true ↔ ∃ p, (r, p) ∈ m := by
  unfold runsLookup
  rw [Option.isSome_map', List.find?_isSome]
  constructor
  · rintro ⟨kv, hkv, hbeq⟩
    refine ⟨kv.2, ?_⟩
    have hk : kv.1 = r := eq_of_beq (by simpa using hbeq)
    rw [show (r, kv.2) = kv from Prod.ext hk.symm rfl]
    exact hkv
  · rintro ⟨p, hp⟩
    exact ⟨(r, p), hp, by simp⟩

lemma runsInsert_mem_iff (m : RunsMap) (r' : Int) (p' : String) (r : Int) :
    (∃ p, (r, p) ∈ runsInsert m r' p') ↔ ((∃ p, (r, p) ∈ m) ∨ r = r') := by
  unfold runsInsert
  split
  · rename_i hany
    rw [List.any_eq_true] at hany
    obtain ⟨kv0, hkv0, hkv0b⟩ := hany
    have hkv0e : kv0.1 = r' := eq_of_beq (by simpa using hkv0b)
    constructor
    · rintro ⟨p, hp⟩
      rw [List.mem_map] at hp
      obtain ⟨kv, hkv, hu⟩ := hp
      by_cases hk : (kv.1 == r') = true
      · rw [if_pos hk] at hu
        right
        have h1 : kv.1 = r := congrArg Prod.fst hu
        have h2 : kv.1 = r' := eq_of_beq hk
        rw [← h1, h2]
      · rw [if_neg hk] at hu
        left
        exact ⟨p, hu ▸ hkv⟩
    · intro h
      rcases h with ⟨p, hp⟩ | rfl
      · by_cases hk : r = r'
        · refine ⟨p', ?_⟩
          rw [List.mem_map]
          exact ⟨(r, p), hp, by simp [hk]⟩
        · refine ⟨p, ?_⟩
          rw [List.mem_map]
          refine ⟨(r, p), hp, ?_⟩
          simp only
          rw [if_neg (by simpa using hk)]
      · refine ⟨p', ?_⟩
        rw [List.mem_map]
        refine ⟨kv0, hkv0, ?_⟩
        rw [if_pos hkv0b, hkv0e]
  · constructor
    · rintro ⟨p, hp⟩
      rw [List.mem_append] at hp
      rcases hp with hp | hp
      · exact Or.inl ⟨p, hp⟩
      · simp at hp
        exact Or.inr hp.1
    · intro h
      rcases h with ⟨p, hp⟩ | rfl
      · exact ⟨p, by rw [List.mem_append]; exact Or.inl hp⟩
      · exact ⟨p', by rw [List.mem_append]; simp⟩

lemma groupInsert_hasRun_iff (acc : List (GroupKey × RunsMap)) (e : FeatEntry)
    (k : GroupKey) (r : Int) :
    (∃ m, (k, m) ∈ groupInsert acc e ∧ ∃ p, (r, p) ∈ m) ↔
      ((∃ m, (k, m) ∈ acc ∧ ∃ p, (r, p) ∈ m) ∨ (entryKey e = k ∧ e.run = r)) := by
  unfold groupInsert
  split
  · rename_i hany
    rw [List.any_eq_true] at hany
    obtain ⟨km0, hkm0, hkm0b⟩ := hany
    have hkm0e : km0.1 = entryKey e := eq_of_beq (by simpa using hkm0b)
    constructor
    · rintro ⟨m, hm, hp⟩
      rw [List.mem_map] at hm
      obtain ⟨km, hkm, hu⟩ := hm
      by_cases hk : (km.1 == entryKey e) = true
      · rw [if_pos hk] at hu
        have hk1 : km.1 = k := congrArg Prod.fst hu
        have hm1 : runsInsert km.2 e.run e.path = m := congrArg Prod.snd hu
        rw [← hm1] at hp
        rw [runsInsert_mem_iff] at hp
        rcases hp with hp | rfl
        · left
          exact ⟨km.2, by rw [show (k, km.2) = km from Prod.ext hk1.symm rfl]; exact hkm, hp⟩
        · right
          exact ⟨by rw [← eq_of_beq hk, hk1], rfl⟩
      · rw [if_neg hk] at hu
        left
        exact ⟨m, hu ▸ hkm, hp⟩
    · intro h
      rcases h with ⟨m, hm, hp⟩ | ⟨hke, hre⟩
      · by_cases hk : ((k : GroupKey) == entryKey e) = true
        · refine ⟨runsInsert m e.run e.path, ?_, ?_⟩
          · rw [List.mem_map]
            exact ⟨(k, m), hm, by simp only; rw [if_pos (by simpa using hk)]⟩
          · rw [runsInsert_mem_iff]
            exact Or.inl hp
        · refine ⟨m, ?_, hp⟩
          rw [List.mem_map]
          refine ⟨(k, m), hm, ?_⟩
          simp only
          rw [if_neg (by simpa using hk)]
      · refine ⟨runsInsert km0.2 e.run e.path, ?_, ?_⟩
        · rw [List.mem_map]
          refine ⟨km0, hkm0, ?_⟩
          rw [if_pos hkm0b, hkm0e, hke]
        · rw [runsInsert_mem_iff]
          exact Or.inr hre.symm
  · constructor
    · rintro ⟨m, hm, hp⟩
      rw [List.mem_append] at hm
      rcases hm with hm | hm
      · exact Or.inl ⟨m, hm, hp⟩
      · simp at hm
        right
        obtain ⟨hk, hm2⟩ := hm
        rw [hm2] at hp
        obtain ⟨p, hp⟩ := hp
        simp at hp
        exact ⟨hk.symm, hp.1.symm⟩
    · intro h
      rcases h with ⟨m, hm, hp⟩ | ⟨hke, hre⟩
      · exact ⟨m, by rw [List.mem_append]; exact Or.inl hm, hp⟩
      · refine ⟨[(e.run, e.path)], ?_, ⟨e.path, by rw [hre]; simp⟩⟩
        rw [List.mem_append]
        right
        simp [hke]

lemma grouped_hasRun_iff (entries : List FeatEntry) :
    ∀ (acc : List (GroupKey × RunsMap)) (k : GroupKey) (r : Int),
      (∃ m, (k, m) ∈ entries.foldl groupInsert acc ∧ ∃ p, (r, p) ∈ m) ↔
        ((∃ m, (k, m) ∈ acc ∧ ∃ p, (r, p) ∈ m) ∨ hasRunEntry entries k r) := by
  induction entries with
  | nil =>
    intro acc k r
    simp [hasRunEntry]
  | cons e es ih =>
    intro acc k r
    rw [List.foldl_cons, ih, groupInsert_hasRun_iff]
    have hsplit : hasRunEntry (e :: es) k r ↔
        ((entryKey e = k ∧ e.run = r) ∨ hasRunEntry es k r) := by
      unfold hasRunEntry
      constructor
      · rintro ⟨x, hx, hk, hr⟩
        rw [List.mem_cons] at hx
        rcases hx with rfl | hx
        · exact Or.inl ⟨hk, hr⟩
        · exact Or.inr ⟨x, hx, hk, hr⟩
      · rintro (⟨hk, hr⟩ | ⟨x, hx, hk, hr⟩)
        · exact ⟨e, List.mem_cons_self e es, hk, hr⟩
        · exact ⟨x, List.mem_cons_of_mem e hx, hk, hr⟩
    rw [hsplit]
    exact or_assoc

lemma groupInsert_keys (g : List (GroupKey × RunsMap)) (e : FeatEntry) :
    (groupInsert g e).map Prod.fst =
      if g.any (fun km => km.1 == entryKey e) then g.map Prod.fst
      else g.map Prod.fst ++ [entryKey e] := by
  unfold groupInsert
  split
  · rw [List.map_map]
    apply List.map_congr_left
    intro km _
    simp only [Function.comp_apply]
    split <;> rfl
  · rw [List.map_append]
    rfl

lemma groupEntries_keys_nodup (entries : List FeatEntry) :
    ∀ (acc : List (GroupKey × RunsMap)), (acc.map Prod.fst).Nodup →
      ((entries.foldl groupInsert acc).map Prod.fst).Nodup := by
  induction entries with
  | nil => intro acc h; exact h
  | cons e es ih =>
    intro acc h
    rw [List.foldl_cons]
    apply ih
    rw [groupInsert_keys]
    split
    · exact h
    · rename_i hany
      rw [List.nodup_append]
      refine ⟨h, by simp, ?_⟩
      intro x hx hx2
      rw [List.mem_singleton] at hx2
      subst hx2
      rw [List.mem_map] at hx
      obtain ⟨km, hkm, hk1⟩ := hx
      exact hany (List.any_eq_true.mpr ⟨km, hkm, by simp [hk1]⟩)

lemma assoc_nodup_unique :
    ∀ (g : List (GroupKey × RunsMap)), (g.map Prod.fst).Nodup →
      ∀ (k : GroupKey) (m₁ m₂ : RunsMap), (k, m₁) ∈ g → (k, m₂) ∈ g → m₁ = m₂ := by
  intro g
  induction g with
  | nil => intro _ k m₁ m₂ h; simp at h
  | cons km g ih =>
    intro hnd k m₁ m₂ h1 h2
    rw [List.map_cons, List.nodup_cons] at hnd
    rw [List.mem_cons] at h1 h2
    rcases h1 with h1 | h1 <;> rcases h2 with h2 | h2
    · exact congrArg Prod.snd (h1.trans h2.symm)
    · exfalso
      apply hnd.1
      have hk : km.1 = k := by rw [← h1]
      rw [hk, List.mem_map]
      exact ⟨(k, m₂), h2, rfl⟩
    · exfalso
      apply hnd.1
      have hk : km.1 = k := by rw [← h2]
      rw [hk, List.mem_map]
      exact ⟨(k, m₁), h1, rfl⟩
    · exact ih hnd.2 k m₁ m₂ h1 h2

lemma pairStep_both {a b : Int} {km : GroupKey × RunsMap}
    {acc : List RunPair × List String} {pa pb : String}
    (ha : runsLookup km.2 a = some pa) (hb : runsLookup km.2 b = some pb) :
    pairStep a b km acc =
      (⟨km.1.1, km.1.2.1, km.1.2.2, a, b, pa, pb⟩ :: acc.1, acc.2) := by
  unfold pairStep
  rw [ha, hb]

lemma pairStep_miss_fst {a b : Int} {km : GroupKey × RunsMap}
    {acc : List RunPair × List String}
    (h : runsLookup km.2 a = none ∨ runsLookup km.2 b = none) :
    (pairStep a b km acc).1 = acc.1 := by
  unfold pairStep
  cases ha : runsLookup km.2 a with
  | none => rfl
  | some pa =>
    cases hb : runsLookup km.2 b with
    | none => rfl
    | some pb =>
      rw [ha] at h
      rw [hb] at h
      rcases h with h | h <;> simp at h

lemma pairs_foldr_mem_iff (a b : Int) :
    ∀ (g : List (GroupKey × RunsMap)) (k : GroupKey),
      (∃ p ∈ (g.foldr (pairStep a b) ([], [])).1, (p.subject, p.session, p.task) = k) ↔
        (∃ km ∈ g, km.1 = k ∧ (runsLookup km.2 a).isSome = true ∧
          (runsLookup km.2 b).isSome = true) := by
  intro g
  induction g with
  | nil => intro k; simp
  | cons km g ih =>
    intro k
    rw [List.foldr_cons]
    cases ha : runsLookup km.2 a with
    | some pa =>
      cases hb : runsLookup km.2 b with
      | some pb =>
        rw [pairStep_both ha hb]
        constructor
        · rintro ⟨p, hp, hkey⟩
          rw [List.mem_cons] at hp
          rcases hp with rfl | hp
          · refine ⟨km, by simp, ?_, by simp [ha], by simp [hb]⟩
            simpa using hkey
          · obtain ⟨km', hkm', hk', hsa, hsb⟩ := (ih k).mp ⟨p, hp, hkey⟩
            exact ⟨km', by simp [hkm'], hk', hsa, hsb⟩
        · rintro ⟨km', hkm', hk', hsa, hsb⟩
          rw [List.mem_cons] at hkm'
          rcases hkm' with rfl | hkm'
          · refine ⟨⟨km'.1.1, km'.1.2.1, km'.1.2.2, a, b, pa, pb⟩, by simp, ?_⟩
            rw [← hk']
          · obtain ⟨p, hp, hkey⟩ := (ih k).mpr ⟨km', hkm', hk', hsa, hsb⟩
            exact ⟨p, by simp [hp], hkey⟩
      | none =>
        rw [show (∃ p ∈ (pairStep a b km (g.foldr (pairStep a b) ([], []))).1,
              (p.subject, p.session, p.task) = k) ↔
            (∃ p ∈ (g.foldr (pairStep a b) ([], [])).1,
              (p.subject, p.session, p.task) = k) from by
          rw [pairStep_miss_fst (Or.inr hb)]]
        rw [ih k]
        constructor
        · rintro ⟨km', hkm', hk', hsa, hsb⟩
          exact ⟨km', by simp [hkm'], hk', hsa, hsb⟩
        · rintro ⟨km', hkm', hk', hsa, hsb⟩
          rw [List.mem_cons] at hkm'
          rcases hkm' with rfl | hkm'
          · rw [hb] at hsb
            simp at hsb
          · exact ⟨km', hkm', hk', hsa, hsb⟩
    | none =>
      rw [show (∃ p ∈ (pairStep a b km (g.foldr (pairStep a b) ([], []))).1,
            (p.subject, p.session, p.task) = k) ↔
          (∃ p ∈ (g.foldr (pairStep a b) ([], [])).1,
            (p.subject, p.session, p.task) = k) from by
        rw [pairStep_miss_fst (Or.inl ha)]]
      rw [ih k]
      constructor
      · rintro ⟨km', hkm', hk', hsa, hsb⟩
        exact ⟨km', by simp [hkm'], hk', hsa, hsb⟩
      · rintro ⟨km', hkm', hk', hsa, hsb⟩
        rw [List.mem_cons] at hkm'
        rcases hkm' with rfl | hkm'
        · rw [ha] at hsa
          simp at hsa
        · exact ⟨km', hkm', hk', hsa, hsb⟩

/-- C4: the Run-Pair Aggregator emits a pairing for a `(subject, session,
task)` group if and only if both requested runs are present among the
collected first-level entries of that group (logging the missing runs and
skipping otherwise); concretely, with first-level directories for runs 1 and
2 and requested pair `(1, 2)`, `main` produces exactly one higher-level
design document, and with only run 1 it produces zero documents while the
log message names the missing run 2. -/
theorem c4_run_pair_aggregation :
    (∀ (entries : List FeatEntry) (a b : Int) (k : GroupKey),
        (∃ p ∈ (pair_runs entries a b).1, (p.subject, p.session, p.task) = k) ↔
          (hasRunEntry entries k a ∧ hasRunEntry entries k b)) ∧
      (ghl_main [("/feat", ["sub-001_ses-001_task-rest_run-1.feat",
            "sub-001_ses-001_task-rest_run-2.feat"])] SubjectsParam.noneP none (1, 2)
          "/designs" "/out" [] =
        (["/designs/sub-001/ses-001/sub-001_ses-001_task-rest_runs-01-02.fsf"],
          ["Generated higher-level FSF: /designs/sub-001/ses-001/sub-001_ses-001_task-rest_runs-01-02.fsf"])) ∧
      (ghl_main [("/feat", ["sub-001_ses-001_task-rest_run-1.feat"])]
          SubjectsParam.noneP none (1, 2) "/designs" "/out" [] =
        ([], ["Skipping pair for sub-001 ses-001 task-rest, missing runs: 2",
          "No run pairs found to process. Exiting."]) ∧
        strContainsSub "Skipping pair for sub-001 ses-001 task-rest, missing runs: 2"
          "2" = true) := by
  refine ⟨?_, rfl, rfl, by decide⟩
  intro entries a b k
  unfold pair_runs
  rw [pairs_foldr_mem_iff]
  have hnodup := groupEntries_keys_nodup entries [] (by simp)
  constructor
  · rintro ⟨km, hkm, rfl, hsa, hsb⟩
    rw [runsLookup_isSome_iff] at hsa hsb
    constructor
    · have := (grouped_hasRun_iff entries [] km.1 a).mp
        ⟨km.2, by simpa using hkm, hsa⟩
      simpa using this
    · have := (grouped_hasRun_iff entries [] km.1 b).mp
        ⟨km.2, by simpa using hkm, hsb⟩
      simpa using this
  · rintro ⟨hha, hhb⟩
    have h2a := (grouped_hasRun_iff entries [] k a).mpr (Or.inr hha)
    have h2b := (grouped_hasRun_iff entries [] k b).mpr (Or.inr hhb)
    obtain ⟨m₁, hm₁, hp₁⟩ := h2a
    obtain ⟨m₂, hm₂, hp₂⟩ := h2b
    have hmeq := assoc_nodup_unique _ hnodup k m₁ m₂
      (by simpa using hm₁) (by simpa using hm₂)
    refine ⟨(k, m₁), by simpa using hm₁, rfl, ?_, ?_⟩
    · rw [runsLookup_isSome_iff]
      exact hp₁
    · rw [runsLookup_isSome_iff]
      rw [hmeq]
      exact hp₂

end FslPipeline
